import Mathlib

/-!
Verification of the esm.sh server core against its specification.

The Go sources under `server/` are shallowly embedded: pure helper
functions become Lean functions, the handler fragments relevant to the
claims become explicit decision functions on their inputs, and the
in-memory build queue becomes a small state machine.  Components of the
repository that are referenced but whose definitions are not part of the
source tree (the args codec, the build queue implementation, a few URL
helpers) are modelled from the specification; each such definition says
so in its doc comment.
-/

namespace EsmSh

/-- `Pkg` from `server/pkg.go`, with the extra fields the later
generations of the source (`build.go`, `router.go`) put on the same
type: `Subpath` (the raw sub path) and `FromGithub`. -/
structure Pkg where
  Name : String
  Version : String
  Submodule : String := ""
  Subpath : String := ""
  FromGithub : Bool := false
deriving DecidableEq, Repr

/-- `Pkg.FullName`. Modelled from the spec: the method body is not under
the source tree; per the spec's canonical URLs it is the
`name@version` pair. -/
def Pkg.FullName (m : Pkg) : String :=
  m.Name ++ "@" ++ m.Version

/-- `Pkg.ImportPath` from `server/pkg.go`. -/
def Pkg.ImportPath (m : Pkg) : String :=
  if m.Submodule != "" then m.Name ++ "/" ++ m.Submodule else m.Name

/-- `Pkg.String` from `server/pkg.go` (the `String()` method). -/
def Pkg.toStr (m : Pkg) : String :=
  let s := m.Name ++ "@" ++ m.Version
  if m.Submodule != "" then s ++ "/" ++ m.Submodule else s

/-- `PkgSlice` from `server/pkg.go`. -/
abbrev PkgSlice := List Pkg

/-- `PkgSlice.Has` from `server/pkg.go` lines 114-121, translated verbatim:
the loop body returns `false` even when an element with the given name is
found. -/
def PkgSlice.Has (a : PkgSlice) (name : String) : Bool :=
  match a with
  | [] => false
  | m :: rest => if m.Name == name then false else PkgSlice.Has rest name

/-- `PkgSlice.Get` from `server/pkg.go` lines 123-130: returns the first
element with the given name together with `true`, or a zero `Pkg` with
`false`. -/
def PkgSlice.Get (a : PkgSlice) (name : String) : Pkg × Bool :=
  match a with
  | [] => ({ Name := "", Version := "" }, false)
  | m :: rest => if m.Name == name then (m, true) else PkgSlice.Get rest name

/-- The `?deps` query filter of `server/query.go` lines 329-344: every
parsed, non-empty entry `m` is appended unless `deps.Has(m.Name)` holds.
The input is the list of successfully parsed `Pkg` values in request
order. -/
def queryDepsFilter (parsed : List Pkg) : PkgSlice :=
  parsed.foldl (fun (deps : PkgSlice) m =>
    if !(deps.Has m.Name) then deps ++ [m] else deps) ([] : PkgSlice)

lemma pkgSlice_has_false (a : PkgSlice) (name : String) : a.Has name = false := by
  induction a with
  | nil => rfl
  | cons m rest ih =>
      unfold PkgSlice.Has
      by_cases h : m.Name == name <;> simp [h, ih]

lemma pkgSlice_get_found (a : PkgSlice) (m : Pkg) (hm : m ∈ a) (name : String)
    (hname : m.Name = name) : (PkgSlice.Get a name).2 = true := by
  induction a with
  | nil => cases hm
  | cons x rest ih =>
      unfold PkgSlice.Get
      by_cases hx : x.Name = name
      · simp [hx]
      · have hx2 : (x.Name == name) = false := beq_eq_false_iff_ne.mpr hx
        simp only [hx2, Bool.false_eq_true, if_false]
        rcases List.mem_cons.mp hm with hEq | hMem
        · subst hEq
          exact absurd hname hx
        · exact ih hMem

lemma queryDepsFilter_go (l : List Pkg) (acc : PkgSlice) :
    l.foldl (fun (deps : PkgSlice) m =>
      if !(deps.Has m.Name) then deps ++ [m] else deps) acc = acc ++ l := by
  induction l generalizing acc with
  | nil => simp
  | cons m rest ih =>
      have hstep : (if (!PkgSlice.Has acc m.Name) = true then acc ++ [m] else acc)
          = acc ++ [m] := by
        simp [pkgSlice_has_false]
      rw [List.foldl_cons, hstep, ih]
      simp

/-- C10: `PkgSlice.Has(name)` returns `false` for every slice and every
name, even when an element with that name is present, disagreeing with
`PkgSlice.Get(name)` which returns that element with `true`; hence the
`?deps` duplicate-name filter guarded by `!deps.Has(m.Name)` never rejects
a duplicate package name (it keeps every entry). -/
theorem pkgSlice_has_always_false_and_filter_keeps_duplicates
    (a : PkgSlice) (name : String) (m : Pkg) (hm : m ∈ a) (hname : m.Name = name)
    (parsed : List Pkg) :
    a.Has name = false ∧ (PkgSlice.Get a name).2 = true ∧
      queryDepsFilter parsed = parsed := by
  refine ⟨pkgSlice_has_false a name, pkgSlice_get_found a m hm name hname, ?_⟩
  unfold queryDepsFilter
  simpa using queryDepsFilter_go parsed []

/-- Witness for C10: a slice holding `react` twice is not deduplicated. -/
theorem pkgSlice_has_always_false_witness :
    let react : Pkg := { Name := "react", Version := "18.2.0" }
    let reactOld : Pkg := { Name := "react", Version := "18.0.0" }
    PkgSlice.Has [react, reactOld] "react" = false ∧
      (PkgSlice.Get [react, reactOld] "react").2 = true ∧
      queryDepsFilter [react, reactOld] = [react, reactOld] :=
  pkgSlice_has_always_false_and_filter_keeps_duplicates
    [{ Name := "react", Version := "18.2.0" }, { Name := "react", Version := "18.0.0" }] "react"
    { Name := "react", Version := "18.2.0" } (by simp) rfl
    [{ Name := "react", Version := "18.2.0" }, { Name := "react", Version := "18.0.0" }]

/-! ### JSON string literals, as produced by Go `encoding/json` -/

/-- Lowercase hex digit for `n < 16`, as emitted by Go. -/
def hexDigitChar (n : Nat) : Char :=
  if n < 10 then Char.ofNat (48 + n) else Char.ofNat (87 + n)

/-- The four hex digits of a `\uXXXX` escape. -/
def hexQuad (n : Nat) : List Char :=
  [hexDigitChar (n / 4096 % 16), hexDigitChar (n / 256 % 16),
   hexDigitChar (n / 16 % 16), hexDigitChar (n % 16)]

/-- Value of one hex digit (accepting both cases), `none` otherwise. -/
def hexDigitVal (c : Char) : Option Nat :=
  if '0' ≤ c ∧ c ≤ '9' then some (c.toNat - 48)
  else if 'a' ≤ c ∧ c ≤ 'f' then some (c.toNat - 87)
  else if 'A' ≤ c ∧ c ≤ 'F' then some (c.toNat - 55)
  else none

/-- Escaping of one character inside a JSON string literal, following Go
`encoding/json` defaults: quote, backslash, the three HTML-sensitive
characters, control characters and U+2028/U+2029 are escaped. -/
def jsonEscapeChar (c : Char) : List Char :=
  if c = '"' then ['\\', '"']
  else if c = '\\' then ['\\', '\\']
  else if c = '\n' then ['\\', 'n']
  else if c = '\r' then ['\\', 'r']
  else if c = '\t' then ['\\', 't']
  else if c.toNat < 32 ∨ c = '<' ∨ c = '>' ∨ c = '&' ∨ c.toNat = 8232 ∨ c.toNat = 8233 then
    '\\' :: 'u' :: hexQuad c.toNat
  else [c]

/-- `utils.MustEncodeJSON` on a string value: the JSON string literal. -/
def mustEncodeJSON (s : String) : String :=
  ⟨'"' :: (s.data.map jsonEscapeChar).flatten ++ ['"']⟩

/-- Parses the body of a JSON string literal up to the closing quote,
returning the decoded characters and the remainder of the input. -/
def parseJsonStrBody : List Char → Option (List Char × List Char)
  | [] => none
  | c :: rest =>
    if c = '"' then some ([], rest)
    else if c = '\\' then
      match rest with
      | [] => none
      | e :: rest2 =>
        if e = '"' then (parseJsonStrBody rest2).map (fun p => ('"' :: p.1, p.2))
        else if e = '\\' then (parseJsonStrBody rest2).map (fun p => ('\\' :: p.1, p.2))
        else if e = 'n' then (parseJsonStrBody rest2).map (fun p => ('\n' :: p.1, p.2))
        else if e = 'r' then (parseJsonStrBody rest2).map (fun p => ('\r' :: p.1, p.2))
        else if e = 't' then (parseJsonStrBody rest2).map (fun p => ('\t' :: p.1, p.2))
        else if e = 'u' then
          match rest2 with
          | h1 :: h2 :: h3 :: h4 :: rest3 =>
            match hexDigitVal h1, hexDigitVal h2, hexDigitVal h3, hexDigitVal h4 with
            | some v1, some v2, some v3, some v4 =>
              (parseJsonStrBody rest3).map
                (fun p => (Char.ofNat (4096 * v1 + 256 * v2 + 16 * v3 + v4) :: p.1, p.2))
            | _, _, _, _ => none
          | _ => none
        else none
    else (parseJsonStrBody rest).map (fun p => (c :: p.1, p.2))

/-- Decodes a complete JSON string literal. -/
def decodeJsonString (s : String) : Option String :=
  match s.data with
  | c :: rest =>
    if c = '"' then
      match parseJsonStrBody rest with
      | some (content, []) => some ⟨content⟩
      | _ => none
    else none
  | [] => none

lemma hexDigitVal_hexDigitChar (k : Nat) (hk : k < 16) :
    hexDigitVal (hexDigitChar k) = some k := by
  interval_cases k <;> rfl

lemma pjs_quote (tail : List Char) : parseJsonStrBody ('"' :: tail) = some ([], tail) := by
  rw [parseJsonStrBody.eq_def]
  simp

lemma pjs_esc_quote (rest : List Char) :
    parseJsonStrBody ('\\' :: '"' :: rest) =
      (parseJsonStrBody rest).map (fun p => ('"' :: p.1, p.2)) := by
  rw [parseJsonStrBody.eq_def]
  simp

lemma pjs_esc_backslash (rest : List Char) :
    parseJsonStrBody ('\\' :: '\\' :: rest) =
      (parseJsonStrBody rest).map (fun p => ('\\' :: p.1, p.2)) := by
  rw [parseJsonStrBody.eq_def]
  simp

lemma pjs_esc_n (rest : List Char) :
    parseJsonStrBody ('\\' :: 'n' :: rest) =
      (parseJsonStrBody rest).map (fun p => ('\n' :: p.1, p.2)) := by
  rw [parseJsonStrBody.eq_def]
  simp

lemma pjs_esc_r (rest : List Char) :
    parseJsonStrBody ('\\' :: 'r' :: rest) =
      (parseJsonStrBody rest).map (fun p => ('\x0d' :: p.1, p.2)) := by
  rw [parseJsonStrBody.eq_def]
  simp

lemma pjs_esc_t (rest : List Char) :
    parseJsonStrBody ('\\' :: 't' :: rest) =
      (parseJsonStrBody rest).map (fun p => ('\t' :: p.1, p.2)) := by
  rw [parseJsonStrBody.eq_def]
  simp

lemma pjs_unicode (n : Nat) (hn : n < 65536) (rest : List Char) :
    parseJsonStrBody ('\\' :: 'u' :: (hexQuad n ++ rest)) =
      (parseJsonStrBody rest).map (fun p => (Char.ofNat n :: p.1, p.2)) := by
  rw [parseJsonStrBody.eq_def]
  simp only [hexQuad, List.cons_append, List.nil_append]
  rw [hexDigitVal_hexDigitChar _ (Nat.mod_lt _ (by norm_num)),
    hexDigitVal_hexDigitChar _ (Nat.mod_lt _ (by norm_num)),
    hexDigitVal_hexDigitChar _ (Nat.mod_lt _ (by norm_num)),
    hexDigitVal_hexDigitChar _ (Nat.mod_lt _ (by norm_num))]
  have hval : 4096 * (n / 4096 % 16) + 256 * (n / 256 % 16) + 16 * (n / 16 % 16) + n % 16 = n := by
    omega
  simp [hval]

lemma pjs_plain (c : Char) (rest : List Char) (h1 : c ≠ '"') (h2 : c ≠ '\\') :
    parseJsonStrBody (c :: rest) =
      (parseJsonStrBody rest).map (fun p => (c :: p.1, p.2)) := by
  rw [parseJsonStrBody.eq_def]
  simp [h1, h2]

lemma parseJsonStrBody_roundtrip (l : List Char) (tail : List Char) :
    parseJsonStrBody ((l.map jsonEscapeChar).flatten ++ '"' :: tail) = some (l, tail) := by
  induction l with
  | nil =>
      simp only [List.map_nil, List.flatten_nil, List.nil_append]
      exact pjs_quote tail
  | cons c l ih =>
      simp only [List.map_cons, List.flatten_cons, List.append_assoc]
      by_cases h1 : c = '"'
      · have hesc : jsonEscapeChar c = ['\\', '"'] := by rw [jsonEscapeChar, if_pos h1]
        rw [hesc]
        simp only [List.cons_append, List.nil_append]
        rw [pjs_esc_quote, ih]
        simp [h1]
      · by_cases h2 : c = '\\'
        · have hesc : jsonEscapeChar c = ['\\', '\\'] := by
            rw [jsonEscapeChar, if_neg h1, if_pos h2]
          rw [hesc]
          simp only [List.cons_append, List.nil_append]
          rw [pjs_esc_backslash, ih]
          simp [h2]
        · by_cases h3 : c = '\n'
          · have hesc : jsonEscapeChar c = ['\\', 'n'] := by
              rw [jsonEscapeChar, if_neg h1, if_neg h2, if_pos h3]
            rw [hesc]
            simp only [List.cons_append, List.nil_append]
            rw [pjs_esc_n, ih]
            simp [h3]
          · by_cases h4 : c = '\x0d'
            · have hesc : jsonEscapeChar c = ['\\', 'r'] := by
                rw [jsonEscapeChar, if_neg h1, if_neg h2, if_neg h3, if_pos h4]
              rw [hesc]
              simp only [List.cons_append, List.nil_append]
              rw [pjs_esc_r, ih]
              simp [h4]
            · by_cases h5 : c = '\t'
              · have hesc : jsonEscapeChar c = ['\\', 't'] := by
                  rw [jsonEscapeChar, if_neg h1, if_neg h2, if_neg h3, if_neg h4, if_pos h5]
                rw [hesc]
                simp only [List.cons_append, List.nil_append]
                rw [pjs_esc_t, ih]
                simp [h5]
              · by_cases h6 : c.toNat < 32 ∨ c = '<' ∨ c = '>' ∨ c = '&' ∨
                    c.toNat = 8232 ∨ c.toNat = 8233
                · have hesc : jsonEscapeChar c = '\\' :: 'u' :: hexQuad c.toNat := by
                    rw [jsonEscapeChar, if_neg h1, if_neg h2, if_neg h3, if_neg h4, if_neg h5,
                      if_pos h6]
                  have hlt : c.toNat < 65536 := by
                    rcases h6 with h | h | h | h | h | h
                    · omega
                    · subst h; decide
                    · subst h; decide
                    · subst h; decide
                    · omega
                    · omega
                  rw [hesc]
                  simp only [List.cons_append]
                  rw [pjs_unicode c.toNat hlt, ih, Char.ofNat_toNat]
                  rfl
                · have hesc : jsonEscapeChar c = [c] := by
                    rw [jsonEscapeChar, if_neg h1, if_neg h2, if_neg h3, if_neg h4, if_neg h5,
                      if_neg h6]
                  rw [hesc]
                  simp only [List.cons_append, List.nil_append]
                  rw [pjs_plain c _ h1 h2, ih]
                  rfl

/-- Decoding inverts `mustEncodeJSON`: the literal denotes exactly the
encoded string. -/
lemma decodeJsonString_mustEncodeJSON (s : String) :
    decodeJsonString (mustEncodeJSON s) = some s := by
  have h := parseJsonStrBody_roundtrip s.data []
  unfold decodeJsonString mustEncodeJSON
  simp only [List.cons_append, List.nil_append] at h ⊢
  simp [h]

/-! ### `strings.TrimSpace` and the error-module response (`server/router.go`) -/

/-- Go `unicode.IsSpace`: the White_Space code points. -/
def goIsSpace (c : Char) : Bool :=
  decide ((9 ≤ c.toNat ∧ c.toNat ≤ 13) ∨ c.toNat = 32 ∨ c.toNat = 133 ∨ c.toNat = 160 ∨
    c.toNat = 5760 ∨ (8192 ≤ c.toNat ∧ c.toNat ≤ 8202) ∨ c.toNat = 8232 ∨ c.toNat = 8233 ∨
    c.toNat = 8239 ∨ c.toNat = 8287 ∨ c.toNat = 12288)

/-- Go `strings.TrimSpace`. -/
def goTrimSpace (s : String) : String :=
  ⟨((s.data.dropWhile goIsSpace).reverse.dropWhile goIsSpace).reverse⟩

/-- Response header constants from `server/router.go` lines 41-50. -/
def ccMustRevalidate : String := "public, max-age=0, must-revalidate"

def cc10min : String := "public, max-age=600"

def cc1day : String := "public, max-age=86400"

def ccImmutable : String := "public, max-age=31536000, immutable"

def ctJavaScript : String := "application/javascript; charset=utf-8"

/-- The parts of an HTTP response the claims talk about. -/
structure HttpResponse where
  status : Nat
  body : String
  cacheControl : String
  contentType : String
deriving DecidableEq, Repr

/-- `throwErrorJS` from `server/router.go` lines 1215-1227. -/
def throwErrorJS (message : String) (static : Bool) : HttpResponse :=
  { status := 500
    body := "/* esm.sh - error */\n" ++
      ("throw new Error(" ++ mustEncodeJSON (goTrimSpace ("[esm.sh] " ++ message)) ++ ");\n") ++
      "export default null;\n"
    cacheControl := if static then ccImmutable else ccMustRevalidate
    contentType := ctJavaScript }

lemma dropWhile_append_char (p : Char → Bool) (a b : List Char) :
    (a ++ b).dropWhile p =
      if (a.dropWhile p).isEmpty then b.dropWhile p else a.dropWhile p ++ b := by
  induction a with
  | nil => simp
  | cons c a ih =>
      by_cases hc : p c
      · simpa [List.dropWhile, hc] using ih
      · simp [List.dropWhile, hc]

lemma goTrimSpace_esm_sig (message : String) :
    ∃ r : String, goTrimSpace ("[esm.sh] " ++ message) = "[esm.sh]" ++ r := by
  have hdata : ("[esm.sh] " ++ message).data =
      "[esm.sh]".data ++ (' ' :: message.data) := rfl
  have hleft : ("[esm.sh] " ++ message).data.dropWhile goIsSpace =
      "[esm.sh]".data ++ (' ' :: message.data) := by
    rw [hdata]
    rfl
  have hrevsig : ("[esm.sh]".data ++ (' ' :: message.data)).reverse =
      ((' ' :: message.data).reverse) ++ "[esm.sh]".data.reverse := by
    simp
  refine ⟨⟨(((' ' :: message.data).reverse).dropWhile goIsSpace).reverse⟩, ?_⟩
  unfold goTrimSpace
  rw [hleft, hrevsig, dropWhile_append_char]
  by_cases hemp : (((' ' :: message.data).reverse).dropWhile goIsSpace).isEmpty
  · rw [if_pos hemp]
    have : ("[esm.sh]".data.reverse).dropWhile goIsSpace = "[esm.sh]".data.reverse := by
      rfl
    rw [this]
    have hnil : (((' ' :: message.data).reverse).dropWhile goIsSpace) = [] :=
      List.isEmpty_iff.mp hemp
    rw [hnil]
    apply congrArg String.mk
    simp
  · rw [if_neg hemp]
    apply congrArg String.mk
    simp

/-- C9: every response produced by `throwErrorJS` has HTTP status 500 and
its body is a JavaScript module consisting of a comment, a statement
`throw new Error(<lit>);` whose string literal decodes exactly to the
trimmed message prefixed with `[esm.sh]`, and a final
`export default null;` — so browser importers surface the human-readable
error at evaluation time. -/
theorem throwErrorJS_is_throwing_js_module (message : String) (static : Bool) :
    (throwErrorJS message static).status = 500 ∧
    (throwErrorJS message static).contentType = ctJavaScript ∧
    ∃ lit r : String,
      (throwErrorJS message static).body =
        "/* esm.sh - error */\n" ++ ("throw new Error(" ++ lit ++ ");\n") ++
          "export default null;\n" ∧
      decodeJsonString lit = some ("[esm.sh]" ++ r) ∧
      "[esm.sh]" ++ r = goTrimSpace ("[esm.sh] " ++ message) := by
  obtain ⟨r, hr⟩ := goTrimSpace_esm_sig message
  refine ⟨rfl, rfl, mustEncodeJSON (goTrimSpace ("[esm.sh] " ++ message)), r, rfl, ?_, hr.symm⟩
  rw [← hr]
  exact decodeJsonString_mustEncodeJSON _

/-! ### The module-request route of `server/router.go` -/

/-- Substring test on character lists (Go `strings.Contains`). -/
def containsChars (l pat : List Char) : Bool :=
  match l with
  | [] => pat.isEmpty
  | _ :: rest => pat.isPrefixOf l || containsChars rest pat

/-- Go `strings.Contains`. -/
def goContains (s sub : String) : Bool :=
  containsChars s.data sub.data

/-- Go `strings.HasPrefix`. -/
def goStartsWith (s pre : String) : Bool :=
  pre.data.isPrefixOf s.data

/-- One replacement pass of Go `strings.ReplaceAll` (nonempty pattern). -/
def replaceAllChars (pat rep : List Char) (hp : 0 < pat.length) : List Char → List Char
  | [] => []
  | c :: rest =>
    if pat.isPrefixOf (c :: rest) then
      rep ++ replaceAllChars pat rep hp (List.drop pat.length (c :: rest))
    else
      c :: replaceAllChars pat rep hp rest
termination_by l => l.length
decreasing_by
  · simp only [List.length_drop, List.length_cons]
    omega
  · simp

/-- Go `strings.ReplaceAll`. -/
def goReplaceAll (s pat rep : String) : String :=
  if hp : 0 < pat.data.length then ⟨replaceAllChars pat.data rep.data hp s.data⟩ else s

/-- `ResType` from `server/router.go` lines 26-39. -/
inductive ResType
  | ResBare
  | ResBuild
  | ResBuildMap
  | ResTypes
  | ResRaw
deriving DecidableEq, Repr

/-- The `BuildResult` record returned by a finished build, as read by
`server/router.go` (fields `TypesOnly`, `PackageCSS`, `Dts`, `Deps`,
`FromCJS`, `HasDefaultExport`). -/
structure BuildResult where
  Deps : List String
  FromCJS : Bool
  HasDefaultExport : Bool
  TypesOnly : Bool
  PackageCSS : Bool
  Dts : String
deriving DecidableEq, Repr

/-- The inputs of the module-request tail of `router()` in
`server/router.go`, after `validatePkgPath` and the query parsing: the
normalized path, the raw and extra query strings, the resolved package,
and the request-classification flags computed by the preceding code. -/
structure ModuleRequest where
  cdnOrigin : String
  pathname : String
  rawQuery : String
  extraQuery : String
  pkg : Pkg
  caretVersion : Bool
  isTargetUrl : Bool
  resType : ResType
  externalAll : Bool
deriving Repr

/-- An answer of the router: either a redirect or a full response. -/
inductive RouteResult
  | redirect (status : Nat) (location : String) (cacheControl : String)
  | response (r : HttpResponse)
deriving DecidableEq, Repr

/-- The full package-version redirect gate, `server/router.go` lines
615-655: a request whose path does not contain `name@version` is sent to
the canonical URL, except that a caret-versioned bare (non-GitHub)
request skips the redirect. -/
def redirectGate (req : ModuleRequest) : Option RouteResult :=
  if !(goContains req.pathname req.pkg.FullName) then
    if !req.isTargetUrl then
      let skipRedirect := req.caretVersion && req.resType == ResType.ResBare &&
        !req.pkg.FromGithub
      if !skipRedirect then
        let ghSeg := if req.pkg.FromGithub then "/gh" else ""
        let pkgName :=
          if goStartsWith req.pkg.Name "@jsr/" then
            "jsr/@" ++ goReplaceAll ⟨req.pkg.Name.data.drop 5⟩ "__" "/"
          else req.pkg.Name
        let eaSign := if req.externalAll then "*" else ""
        let subPath := if req.pkg.Subpath != "" then "/" ++ req.pkg.Subpath else ""
        if req.rawQuery != "" && req.extraQuery != "" then
          some (RouteResult.redirect 302
            (req.cdnOrigin ++ ghSeg ++ "/" ++ eaSign ++ pkgName ++ "@" ++ req.pkg.Version ++
              ("&" ++ req.rawQuery) ++ subPath) cc10min)
        else
          let query := if req.rawQuery != "" then "?" ++ req.rawQuery else ""
          some (RouteResult.redirect 302
            (req.cdnOrigin ++ ghSeg ++ "/" ++ eaSign ++ pkgName ++ "@" ++ req.pkg.Version ++
              subPath ++ query) cc10min)
      else none
    else
      let subPath := if req.pkg.Subpath != "" then "/" ++ req.pkg.Subpath else ""
      let query := if req.rawQuery != "" then "?" ++ req.rawQuery else ""
      some (RouteResult.redirect 302
        (req.cdnOrigin ++ "/" ++ req.pkg.FullName ++ subPath ++ query) cc10min)
  else none

/-- End-of-line marker used by the response writers. -/
def EOL : String := "\n"

/-- Helper of `goPathExt`: walks the reversed path, collecting the final
extension up to its dot; a slash before a dot means no extension. -/
def goPathExtAux (acc : List Char) : List Char → String
  | [] => ""
  | c :: rest =>
    if c = '/' then ""
    else if c = '.' then ⟨'.' :: acc⟩
    else goPathExtAux (c :: acc) rest

/-- Go `path.Ext`. -/
def goPathExt (p : String) : String :=
  goPathExtAux [] p.data.reverse

/-- Go `strings.TrimSuffix`. -/
def goTrimSuffix (s suffx : String) : String :=
  if suffx.data.isSuffixOf s.data then ⟨s.data.take (s.data.length - suffx.data.length)⟩
  else s

/-- The worker-factory module text of `server/router.go` line 1163-1167. -/
def workerFactoryBody (moduleUrl : String) : String :=
  "export default function workerFactory(injectOrOptions) \x7b const options = typeof injectOrOptions === \"string\" ? \x7b inject: injectOrOptions \x7d: injectOrOptions ?? \x7b\x7d; const \x7b inject, name = \"" ++
    moduleUrl ++
    "\" \x7d = options; const blob = new Blob([\x27import * as $module from \"" ++
    moduleUrl ++
    "\";\x27, inject].filter(Boolean), \x7b type: \"application/javascript\" \x7d); return new Worker(URL.createObjectURL(blob), \x7b type: \"module\", name \x7d)\x7d"

/-- The wrapper-module response assembly of `server/router.go` lines
1158-1202 (ignoring the `X-TypeScript-Types` and `Vary` headers, which
do not carry cache data). -/
def wrapperResponse (req : ModuleRequest) (esmPath : String) (ret : BuildResult)
    (exports : List String) (isWorker : Bool) : HttpResponse :=
  let head := "/* esm.sh - " ++ req.pkg.toStr ++ " */" ++ EOL
  let body :=
    if isWorker then
      head ++ workerFactoryBody (req.cdnOrigin ++ esmPath)
    else
      let depImports := (ret.Deps.map (fun dep => "import \"" ++ dep ++ "\";" ++ EOL))
      let star := "export * from \"" ++ esmPath ++ "\";" ++ EOL
      let deflt :=
        if (ret.FromCJS || ret.HasDefaultExport) &&
            (exports.isEmpty || exports.contains "default") then
          "export \x7b default \x7d from \"" ++ esmPath ++ "\";" ++ EOL
        else ""
      let cjs :=
        if ret.FromCJS && !exports.isEmpty then
          "import __cjs_exports$ from \"" ++ esmPath ++ "\";" ++ EOL ++
            "export const \x7b " ++ String.intercalate ", " exports ++
            " \x7d = __cjs_exports$;" ++ EOL
        else ""
      head ++ String.join depImports ++ star ++ deflt ++ cjs
  { status := 200
    body := body
    cacheControl := if req.caretVersion then cc10min else ccImmutable
    contentType := ctJavaScript }

/-- The tail of the module-request route for a request that was not
answered from storage: redirect gate, then the `TypesOnly` and `?css`
special cases (`server/router.go` lines 1102-1121), then the wrapper.
`isPkgCss` is the `?css` flag. -/
def routeModuleRequest (req : ModuleRequest) (esmPath : String) (ret : BuildResult)
    (exports : List String) (isPkgCss isWorker : Bool) : RouteResult :=
  match redirectGate req with
  | some r => r
  | none =>
    if ret.TypesOnly then
      RouteResult.response
        { status := 200
          body := "export default null;" ++ EOL
          cacheControl := ccImmutable
          contentType := ctJavaScript }
    else if isPkgCss && req.pkg.Submodule == "" then
      if !ret.PackageCSS then
        RouteResult.response
          { status := 404, body := "Package CSS not found", cacheControl := "",
            contentType := "" }
      else
        RouteResult.redirect 301
          (req.cdnOrigin ++ goTrimSuffix esmPath (goPathExt esmPath) ++ ".css") ""
    else
      RouteResult.response (wrapperResponse req esmPath ret exports isWorker)

lemma redirectGate_some_is_redirect (req : ModuleRequest) (x : RouteResult)
    (h : redirectGate req = some x) :
    ∃ st loc cc, x = RouteResult.redirect st loc cc := by
  unfold redirectGate at h
  by_cases hc : goContains req.pathname req.pkg.FullName
  · simp [hc] at h
  · simp only [hc, Bool.not_false, if_true] at h
    by_cases ht : req.isTargetUrl
    · simp only [ht, Bool.not_true, Bool.false_eq_true, if_false, Option.some.injEq] at h
      exact ⟨_, _, _, h.symm⟩
    · simp only [ht, Bool.not_false, if_true] at h
      by_cases hs : req.caretVersion && req.resType == ResType.ResBare && !req.pkg.FromGithub
      · simp [hs] at h
      · simp only [hs, Bool.not_false, if_true] at h
        by_cases hq : req.rawQuery != "" && req.extraQuery != ""
        · simp only [hq, if_true, Option.some.injEq] at h
          exact ⟨_, _, _, h.symm⟩
        · simp only [hq, Bool.false_eq_true, if_false, Option.some.injEq] at h
          exact ⟨_, _, _, h.symm⟩

lemma redirectGate_none_cases (req : ModuleRequest)
    (h : redirectGate req = none) :
    goContains req.pathname req.pkg.FullName = true ∨
      (req.caretVersion = true ∧ req.resType = ResType.ResBare ∧
        req.pkg.FromGithub = false) := by
  unfold redirectGate at h
  by_cases hc : goContains req.pathname req.pkg.FullName
  · exact Or.inl hc
  · right
    simp only [hc, Bool.not_false, if_true] at h
    by_cases ht : req.isTargetUrl
    · simp [ht] at h
    · simp only [ht, Bool.not_false, if_true] at h
      by_cases hs : req.caretVersion && req.resType == ResType.ResBare && !req.pkg.FromGithub
      · have := Bool.and_eq_true .. ▸ hs
        obtain ⟨h1, h2⟩ := this
        obtain ⟨h3, h4⟩ := Bool.and_eq_true .. ▸ h1
        refine ⟨h3, by simpa using h4, by simpa using h2⟩
      · simp only [hs, Bool.not_false, if_true] at h
        by_cases hq : req.rawQuery != "" && req.extraQuery != "" <;> simp [hq] at h

/-- C7: a successful wrapper-module response to a bare package URL
carries `public, max-age=31536000, immutable` when the request path holds
the fully pinned version, and the 10-minute cache when the version is a
caret range; a request that is neither (unpinned) never produces a
wrapper at all — it is redirected before the wrapper is assembled. -/
theorem wrapper_cache_immutable_iff_pinned
    (req : ModuleRequest) (esmPath : String) (ret : BuildResult)
    (exports : List String) (isWorker : Bool) (r : HttpResponse)
    (hbare : req.resType = ResType.ResBare)
    (hto : ret.TypesOnly = false)
    (hres : routeModuleRequest req esmPath ret exports false isWorker =
      RouteResult.response r) :
    (req.caretVersion = true → r.cacheControl = cc10min) ∧
    (req.caretVersion = false →
      r.cacheControl = ccImmutable ∧
        goContains req.pathname req.pkg.FullName = true) := by
  unfold routeModuleRequest at hres
  cases hgate : redirectGate req with
  | some x =>
      rw [hgate] at hres
      obtain ⟨st, loc, cc, hx⟩ := redirectGate_some_is_redirect req x hgate
      subst hx
      exact absurd hres (by simp)
  | none =>
      rw [hgate] at hres
      simp only [hto, Bool.false_eq_true, if_false, Bool.false_and] at hres
      have hr : r = wrapperResponse req esmPath ret exports isWorker := by
        cases hres
        rfl
      subst hr
      constructor
      · intro hcar
        simp [wrapperResponse, hcar]
      · intro hcar
        refine ⟨by simp [wrapperResponse, hcar], ?_⟩
        rcases redirectGate_none_cases req hgate with hc | ⟨hcar2, -⟩
        · exact hc
        · rw [hcar] at hcar2
          cases hcar2

/-- Witness for C7: a pinned request yields the immutable cache header, a
caret request the 10-minute one. -/
theorem wrapper_cache_immutable_iff_pinned_witness :
    let pinnedReq : ModuleRequest :=
      { cdnOrigin := "https://esm.sh", pathname := "/react@18.2.0", rawQuery := "",
        extraQuery := "", pkg := { Name := "react", Version := "18.2.0" },
        caretVersion := false, isTargetUrl := false, resType := ResType.ResBare,
        externalAll := false }
    let caretReq : ModuleRequest :=
      { cdnOrigin := "https://esm.sh", pathname := "/react@^18.2.0", rawQuery := "",
        extraQuery := "", pkg := { Name := "react", Version := "18.3.1" },
        caretVersion := true, isTargetUrl := false, resType := ResType.ResBare,
        externalAll := false }
    let ret : BuildResult :=
      { Deps := [], FromCJS := false, HasDefaultExport := true, TypesOnly := false,
        PackageCSS := false, Dts := "" }
    (wrapperResponse pinnedReq "/react@18.2.0/es2022/react.mjs" ret [] false).cacheControl =
        ccImmutable ∧
      (wrapperResponse caretReq "/react@18.3.1/es2022/react.mjs" ret [] false).cacheControl =
        cc10min := by
  intro pinnedReq caretReq ret
  refine ⟨((wrapper_cache_immutable_iff_pinned pinnedReq "/react@18.2.0/es2022/react.mjs" ret []
    false _ rfl rfl ?_).2 rfl).1, (wrapper_cache_immutable_iff_pinned caretReq
    "/react@18.3.1/es2022/react.mjs" ret [] false _ rfl rfl ?_).1 rfl⟩
  · show routeModuleRequest pinnedReq "/react@18.2.0/es2022/react.mjs" ret [] false false =
      RouteResult.response (wrapperResponse pinnedReq "/react@18.2.0/es2022/react.mjs" ret [] false)
    decide
  · show routeModuleRequest caretReq "/react@18.3.1/es2022/react.mjs" ret [] false false =
      RouteResult.response (wrapperResponse caretReq "/react@18.3.1/es2022/react.mjs" ret [] false)
    decide

/-- Discriminates the redirect answers of the router. -/
def RouteResult.isRedirect : RouteResult → Bool
  | RouteResult.redirect .. => true
  | _ => false

/-- The caret-versioned bare request of C8's counterexample:
`GET /react@^18.2.0` resolving to version `18.3.1`. -/
def caretBareReq : ModuleRequest :=
  { cdnOrigin := "https://esm.sh", pathname := "/react@^18.2.0", rawQuery := "",
    extraQuery := "", pkg := { Name := "react", Version := "18.3.1" },
    caretVersion := true, isTargetUrl := false, resType := ResType.ResBare,
    externalAll := false }

/-- A plain build result used by C8's theorems. -/
def plainBuildResult : BuildResult :=
  { Deps := [], FromCJS := false, HasDefaultExport := true, TypesOnly := false,
    PackageCSS := false, Dts := "" }

/-- Counterexample to C8 as stated: the path `/react@^18.2.0` lacks the
fully resolved version `react@18.3.1`, yet the router serves the module
wrapper directly instead of a 302 redirect (the caret-version skip at
`server/router.go` line 618). -/
theorem caret_bare_request_not_redirected :
    goContains caretBareReq.pathname caretBareReq.pkg.FullName = false ∧
    (routeModuleRequest caretBareReq "/react@18.3.1/es2022/react.mjs" plainBuildResult
      [] false false).isRedirect = false := by
  decide

/-- C8 (amended): a module request whose path lacks the fully resolved
package version is answered with a 302 redirect to the same URL with the
resolved version inserted (10-minute cache), unless it is a
caret-versioned bare request for a non-GitHub package, which is served
directly. Stated here for requests without the inline extra-query form
and outside the `@jsr/` rename. -/
theorem unpinned_module_request_redirected
    (req : ModuleRequest) (esmPath : String) (ret : BuildResult)
    (exports : List String) (isPkgCss isWorker : Bool)
    (hmiss : goContains req.pathname req.pkg.FullName = false)
    (hskip : ¬(req.caretVersion = true ∧ req.resType = ResType.ResBare ∧
      req.pkg.FromGithub = false))
    (hjsr : goStartsWith req.pkg.Name "@jsr/" = false)
    (hextra : req.extraQuery = "") :
    routeModuleRequest req esmPath ret exports isPkgCss isWorker =
      RouteResult.redirect 302
        (if req.isTargetUrl then
          req.cdnOrigin ++ "/" ++ req.pkg.FullName ++
            (if req.pkg.Subpath != "" then "/" ++ req.pkg.Subpath else "") ++
            (if req.rawQuery != "" then "?" ++ req.rawQuery else "")
        else
          req.cdnOrigin ++ (if req.pkg.FromGithub then "/gh" else "") ++ "/" ++
            (if req.externalAll then "*" else "") ++ req.pkg.Name ++ "@" ++
            req.pkg.Version ++
            (if req.pkg.Subpath != "" then "/" ++ req.pkg.Subpath else "") ++
            (if req.rawQuery != "" then "?" ++ req.rawQuery else ""))
        cc10min := by
  have hgate : redirectGate req = some (RouteResult.redirect 302
      (if req.isTargetUrl then
        req.cdnOrigin ++ "/" ++ req.pkg.FullName ++
          (if req.pkg.Subpath != "" then "/" ++ req.pkg.Subpath else "") ++
          (if req.rawQuery != "" then "?" ++ req.rawQuery else "")
      else
        req.cdnOrigin ++ (if req.pkg.FromGithub then "/gh" else "") ++ "/" ++
          (if req.externalAll then "*" else "") ++ req.pkg.Name ++ "@" ++
          req.pkg.Version ++
          (if req.pkg.Subpath != "" then "/" ++ req.pkg.Subpath else "") ++
          (if req.rawQuery != "" then "?" ++ req.rawQuery else ""))
      cc10min) := by
    unfold redirectGate
    simp only [hmiss, Bool.not_false, if_true]
    by_cases ht : req.isTargetUrl
    · simp [ht]
    · have hskipb : (req.caretVersion && req.resType == ResType.ResBare &&
          !req.pkg.FromGithub) = false := by
        by_contra hne
        have hb : (req.caretVersion && req.resType == ResType.ResBare &&
            !req.pkg.FromGithub) = true := by
          cases hx : (req.caretVersion && req.resType == ResType.ResBare &&
            !req.pkg.FromGithub) with
          | true => rfl
          | false => exact absurd hx hne
        obtain ⟨h1, h2⟩ := Bool.and_eq_true .. ▸ hb
        obtain ⟨h3, h4⟩ := Bool.and_eq_true .. ▸ h1
        exact hskip ⟨h3, by simpa using h4, by simpa using h2⟩
      have hq : (req.rawQuery != "" && req.extraQuery != "") = false := by
        simp [hextra]
      simp only [ht, Bool.not_false, if_true, if_false, hskipb, hq, Bool.false_eq_true, hjsr]
  unfold routeModuleRequest
  rw [hgate]

/-- Witness for C8's amended theorem: `GET /react` resolving to
`react@18.3.1` redirects (302) to `/react@18.3.1`. -/
theorem unpinned_module_request_redirected_witness :
    routeModuleRequest
      { cdnOrigin := "https://esm.sh", pathname := "/react", rawQuery := "",
        extraQuery := "", pkg := { Name := "react", Version := "18.3.1" },
        caretVersion := false, isTargetUrl := false, resType := ResType.ResBare,
        externalAll := false }
      "" plainBuildResult [] false false =
      RouteResult.redirect 302 "https://esm.sh/react@18.3.1" cc10min := by
  have h := unpinned_module_request_redirected
    { cdnOrigin := "https://esm.sh", pathname := "/react", rawQuery := "",
      extraQuery := "", pkg := { Name := "react", Version := "18.3.1" },
      caretVersion := false, isTargetUrl := false, resType := ResType.ResBare,
      externalAll := false }
    "" plainBuildResult [] false false (by decide) (by simp) (by decide) rfl
  exact h.trans (by decide)

/-! ### Character-list split/join utilities for the args codec -/

/-- Joins groups with a separator character. -/
def joinChar (sep : Char) : List (List Char) → List Char
  | [] => []
  | [x] => x
  | x :: y :: ys => x ++ sep :: joinChar sep (y :: ys)

/-- Splits at every occurrence of the separator (Go `strings.Split`). -/
def splitChar (sep : Char) : List Char → List (List Char)
  | [] => [[]]
  | c :: rest =>
    if c = sep then [] :: splitChar sep rest
    else
      match splitChar sep rest with
      | [] => [[c]]
      | g :: gs => (c :: g) :: gs

/-- Splits at the first occurrence of the separator
(`utils.SplitByFirstByte`, failing when the separator is absent). -/
def splitFirst (sep : Char) : List Char → Option (List Char × List Char)
  | [] => none
  | c :: rest =>
    if c = sep then some ([], rest)
    else (splitFirst sep rest).map (fun p => (c :: p.1, p.2))

/-- Splits at the last occurrence of the separator
(`utils.SplitByLastByte`, failing when the separator is absent). -/
def splitLast (sep : Char) (l : List Char) : Option (List Char × List Char) :=
  (splitFirst sep l.reverse).map (fun p => (p.2.reverse, p.1.reverse))

lemma splitChar_nonempty (sep : Char) (l : List Char) : splitChar sep l ≠ [] := by
  cases l with
  | nil => simp [splitChar]
  | cons c rest =>
      rw [splitChar]
      by_cases hc : c = sep
      · simp [hc]
      · rw [if_neg hc]
        cases h : splitChar sep rest <;> simp

lemma splitChar_cons_ne (sep c : Char) (rest : List Char) (hc : c ≠ sep) :
    splitChar sep (c :: rest) =
      (c :: (splitChar sep rest).headD []) :: (splitChar sep rest).tail := by
  rw [splitChar, if_neg hc]
  cases h : splitChar sep rest with
  | nil => exact absurd h (splitChar_nonempty sep rest)
  | cons g gs => simp

lemma splitChar_sepfree_append (sep : Char) (g rest : List Char)
    (hg : ∀ c ∈ g, c ≠ sep) :
    splitChar sep (g ++ sep :: rest) = g :: splitChar sep rest := by
  induction g with
  | nil => simp [splitChar]
  | cons c g ih =>
      have hc : c ≠ sep := hg c (by simp)
      have ih2 := ih (fun x hx => hg x (by simp [hx]))
      rw [List.cons_append, splitChar_cons_ne sep c _ hc, ih2]
      simp

lemma splitChar_sepfree (sep : Char) (g : List Char) (hg : ∀ c ∈ g, c ≠ sep) :
    splitChar sep g = [g] := by
  induction g with
  | nil => rfl
  | cons c g ih =>
      have hc : c ≠ sep := hg c (by simp)
      have ih2 := ih (fun x hx => hg x (by simp [hx]))
      rw [splitChar_cons_ne sep c _ hc, ih2]
      simp

/-- Splitting inverts joining as long as every group is separator-free. -/
lemma splitChar_joinChar (sep : Char) (gs : List (List Char)) (hne : gs ≠ [])
    (hfree : ∀ g ∈ gs, ∀ c ∈ g, c ≠ sep) :
    splitChar sep (joinChar sep gs) = gs := by
  induction gs with
  | nil => exact absurd rfl hne
  | cons g gs ih =>
      cases gs with
      | nil =>
          rw [joinChar]
          exact splitChar_sepfree sep g (hfree g (by simp))
      | cons g2 gs2 =>
          rw [joinChar, splitChar_sepfree_append sep g _ (hfree g (by simp))]
          rw [ih (by simp) (fun x hx c hc => hfree x (by simp [hx]) c hc)]

lemma splitFirst_sepfree_append (sep : Char) (a b : List Char)
    (ha : ∀ c ∈ a, c ≠ sep) :
    splitFirst sep (a ++ sep :: b) = some (a, b) := by
  induction a with
  | nil => simp [splitFirst]
  | cons c a ih =>
      have hc : c ≠ sep := ha c (by simp)
      rw [List.cons_append, splitFirst, if_neg hc, ih (fun x hx => ha x (by simp [hx]))]
      rfl

lemma splitLast_sepfree_append (sep : Char) (a b : List Char)
    (hb : ∀ c ∈ b, c ≠ sep) :
    splitLast sep (a ++ sep :: b) = some (a, b) := by
  unfold splitLast
  have hrev : (a ++ sep :: b).reverse = b.reverse ++ sep :: a.reverse := by
    simp
  rw [hrev, splitFirst_sepfree_append sep _ _ (fun c hc => hb c (by simpa using hc))]
  simp

/-! ### Raw URL-safe base64 (`btoaUrl` / `atobUrl` of `server/utils.go`) -/

/-- The URL-safe base64 alphabet. -/
def b64Char (k : Nat) : Char :=
  if k < 26 then Char.ofNat (65 + k)
  else if k < 52 then Char.ofNat (97 + (k - 26))
  else if k < 62 then Char.ofNat (48 + (k - 52))
  else if k = 62 then '-'
  else '_'

/-- Value of one URL-safe base64 character. -/
def b64Val (c : Char) : Option Nat :=
  if 'A' ≤ c ∧ c ≤ 'Z' then some (c.toNat - 65)
  else if 'a' ≤ c ∧ c ≤ 'z' then some (c.toNat - 97 + 26)
  else if '0' ≤ c ∧ c ≤ '9' then some (c.toNat - 48 + 52)
  else if c = '-' then some 62
  else if c = '_' then some 63
  else none

/-- Unpadded base64 encoding of a byte sequence. -/
def b64EncodeBytes : List Nat → List Char
  | [] => []
  | a :: rest =>
    match rest with
    | [] => [b64Char (a / 4), b64Char (a % 4 * 16)]
    | b :: rest2 =>
      match rest2 with
      | [] => [b64Char (a / 4), b64Char (a % 4 * 16 + b / 16), b64Char (b % 16 * 4)]
      | c :: rest3 =>
        b64Char (a / 4) :: b64Char (a % 4 * 16 + b / 16) :: b64Char (b % 16 * 4 + c / 64) ::
          b64Char (c % 64) :: b64EncodeBytes rest3

/-- Unpadded base64 decoding to a byte sequence; rejects stray trailing
bits and invalid alphabet characters. -/
def b64DecodeBytes : List Char → Option (List Nat)
  | [] => some []
  | c1 :: rest1 =>
    match rest1 with
    | [] => none
    | c2 :: rest2 =>
      match rest2 with
      | [] =>
        match b64Val c1, b64Val c2 with
        | some v1, some v2 =>
          if v2 % 16 = 0 then some [v1 * 4 + v2 / 16] else none
        | _, _ => none
      | c3 :: rest3 =>
        match rest3 with
        | [] =>
          match b64Val c1, b64Val c2, b64Val c3 with
          | some v1, some v2, some v3 =>
            if v3 % 4 = 0 then some [v1 * 4 + v2 / 16, v2 % 16 * 16 + v3 / 4] else none
          | _, _, _ => none
        | c4 :: rest4 =>
          match b64Val c1, b64Val c2, b64Val c3, b64Val c4 with
          | some v1, some v2, some v3, some v4 =>
            (b64DecodeBytes rest4).map
              (fun tl =>
                (v1 * 4 + v2 / 16) :: (v2 % 16 * 16 + v3 / 4) :: (v3 % 4 * 64 + v4) :: tl)
          | _, _, _, _ => none

lemma b64Val_b64Char : ∀ k < 64, b64Val (b64Char k) = some k := by
  decide

lemma b64_roundtrip :
    ∀ bytes : List Nat, (∀ b ∈ bytes, b < 256) →
      b64DecodeBytes (b64EncodeBytes bytes) = some bytes
  | [], _ => rfl
  | [a], h => by
      have ha : a < 256 := h a (by simp)
      show (match b64Val (b64Char (a / 4)), b64Val (b64Char (a % 4 * 16)) with
        | some v1, some v2 => if v2 % 16 = 0 then some [v1 * 4 + v2 / 16] else none
        | _, _ => none) = some [a]
      rw [b64Val_b64Char _ (by omega), b64Val_b64Char _ (by omega)]
      simp only [if_pos (show a % 4 * 16 % 16 = 0 by omega)]
      congr 2
      omega
  | [a, b], h => by
      have ha : a < 256 := h a (by simp)
      have hb : b < 256 := h b (by simp)
      show (match b64Val (b64Char (a / 4)), b64Val (b64Char (a % 4 * 16 + b / 16)),
          b64Val (b64Char (b % 16 * 4)) with
        | some v1, some v2, some v3 =>
          if v3 % 4 = 0 then some [v1 * 4 + v2 / 16, v2 % 16 * 16 + v3 / 4] else none
        | _, _, _ => none) = some [a, b]
      rw [b64Val_b64Char _ (by omega), b64Val_b64Char _ (by omega),
        b64Val_b64Char _ (by omega)]
      simp only [if_pos (show b % 16 * 4 % 4 = 0 by omega)]
      have h1 : (a / 4) * 4 + (a % 4 * 16 + b / 16) / 16 = a := by omega
      have h2 : (a % 4 * 16 + b / 16) % 16 * 16 + (b % 16 * 4) / 4 = b := by omega
      rw [h1, h2]
  | a :: b :: c :: rest, h => by
      have ha : a < 256 := h a (by simp)
      have hb : b < 256 := h b (by simp)
      have hc : c < 256 := h c (by simp)
      have ih := b64_roundtrip rest (fun x hx => h x (by simp [hx]))
      show (match b64Val (b64Char (a / 4)), b64Val (b64Char (a % 4 * 16 + b / 16)),
          b64Val (b64Char (b % 16 * 4 + c / 64)), b64Val (b64Char (c % 64)) with
        | some v1, some v2, some v3, some v4 =>
          (b64DecodeBytes (b64EncodeBytes rest)).map
            (fun tl =>
              (v1 * 4 + v2 / 16) :: (v2 % 16 * 16 + v3 / 4) :: (v3 % 4 * 64 + v4) :: tl)
        | _, _, _, _ => none) = some (a :: b :: c :: rest)
      rw [b64Val_b64Char _ (by omega), b64Val_b64Char _ (by omega),
        b64Val_b64Char _ (by omega), b64Val_b64Char _ (by omega)]
      simp only [ih, Option.map_some]
      have h1 : (a / 4) * 4 + (a % 4 * 16 + b / 16) / 16 = a := by omega
      have h2 : (a % 4 * 16 + b / 16) % 16 * 16 + (b % 16 * 4 + c / 64) / 4 = b := by omega
      have h3 : (b % 16 * 4 + c / 64) % 4 * 64 + c % 64 = c := by omega
      rw [h1, h2, h3]
      rfl

/-- Go `btoaUrl` of `server/utils.go`: raw URL-safe base64 of the bytes
of the string (the payloads are ASCII). -/
def btoaUrl (s : String) : String :=
  ⟨b64EncodeBytes (s.data.map Char.toNat)⟩

/-- Go `atobUrl` of `server/utils.go`. -/
def atobUrl (s : String) : Option String :=
  (b64DecodeBytes s.data).map (fun bytes => ⟨bytes.map Char.ofNat⟩)

/-! ### The args codec

`encodeBuildArgs` / `decodeBuildArgs` are exercised by
`server/build_args_test.go` and called throughout the handlers, but their
bodies are not part of the source tree; the codec below is modelled from
the specification: the args prefix is a base-64-URL string whose decoded
payload lists the arguments as `key:value` lines in a fixed order;
encoding omits empty fields, sorts every set-valued field
lexicographically, removes unit aliases and entries naming the package
itself, applies the react-dom→react equalization, and decoding rejects
unknown keys. -/

/-- `BuildArgs`: the side-channel build modifiers. Go's maps and string
sets are modelled as association/element lists. -/
structure BuildArgs where
  aliasMap : List (String × String) := []
  deps : PkgSlice := []
  external : List String := []
  exports : List String := []
  conditions : List String := []
  jsxRuntime : Option Pkg := none
  externalRequire : Bool := false
  keepNames : Bool := false
  ignoreAnnotations : Bool := false
deriving DecidableEq, Repr

/-- Byte-wise lexicographic comparison (Go string `<`). -/
def lexLeChars : List Char → List Char → Bool
  | [], _ => true
  | _ :: _, [] => false
  | a :: as, b :: bs => if a = b then lexLeChars as bs else decide (a < b)

/-- `strLe a b` is the Go `a <= b` on strings. -/
def strLe (a b : String) : Bool :=
  lexLeChars a.data b.data

/-- Insertion by a string sort key. -/
def insertByKey {α : Type} (key : α → String) (x : α) : List α → List α
  | [] => [x]
  | y :: ys => if strLe (key x) (key y) then x :: y :: ys else y :: insertByKey key x ys

/-- Insertion sort by a string sort key (the codec's lexicographic
normalization of set-valued fields). -/
def sortByKey {α : Type} (key : α → String) : List α → List α
  | [] => []
  | x :: xs => insertByKey key x (sortByKey key xs)

/-- Textual form of one alias entry: `from:to`. -/
def printAliasEntry (e : String × String) : List Char :=
  e.1.data ++ ':' :: e.2.data

/-- Textual form of one dependency entry: `name@version`. -/
def printDepEntry (p : Pkg) : List Char :=
  p.Name.data ++ '@' :: p.Version.data

/-- The alias entries that survive encoding: not the package itself and
not a unit alias. -/
def keptAlias (args : BuildArgs) (pkg : Pkg) : List (String × String) :=
  sortByKey (fun e => (⟨printAliasEntry e⟩ : String))
    (args.aliasMap.filter (fun e => e.1 != pkg.Name && e.1 != e.2))

/-- The dependency entries that survive encoding: not the package itself,
and `react` is dropped for `react-dom` (its version is equalized). -/
def keptDeps (args : BuildArgs) (pkg : Pkg) : PkgSlice :=
  sortByKey (fun p => (⟨printDepEntry p⟩ : String))
    (args.deps.filter (fun p =>
      p.Name != pkg.Name && !(pkg.Name == "react-dom" && p.Name == "react")))

/-- The optional `jsxRuntime` payload line. -/
def jsxSeg : Option Pkg → List (List Char)
  | some p => ["jsxRuntime".data ++ ':' :: printDepEntry p]
  | none => []

/-- The `key:value` payload lines of the args prefix, in their fixed
order; empty fields are omitted. -/
def encodeLines (args : BuildArgs) (pkg : Pkg) : List (List Char) :=
  (if (keptAlias args pkg).isEmpty then [] else
    ["alias".data ++ ':' :: joinChar ',' ((keptAlias args pkg).map printAliasEntry)]) ++
  ((if (keptDeps args pkg).isEmpty then [] else
    ["deps".data ++ ':' :: joinChar ',' ((keptDeps args pkg).map printDepEntry)]) ++
  ((if (sortByKey id args.external).isEmpty then [] else
    ["external".data ++ ':' :: joinChar ',' ((sortByKey id args.external).map String.data)]) ++
  ((if (sortByKey id args.exports).isEmpty then [] else
    ["exports".data ++ ':' :: joinChar ',' ((sortByKey id args.exports).map String.data)]) ++
  ((if (sortByKey id args.conditions).isEmpty then [] else
    ["conditions".data ++ ':' ::
      joinChar ',' ((sortByKey id args.conditions).map String.data)]) ++
  (jsxSeg args.jsxRuntime ++
  ((if args.externalRequire then ["externalRequire".data ++ [':', '1']] else []) ++
  ((if args.keepNames then ["keepNames".data ++ [':', '1']] else []) ++
  (if args.ignoreAnnotations then ["ignoreAnnotations".data ++ [':', '1']] else []))))))))

/-- The args-prefix payload before the base64 envelope. -/
def encodeBuildArgsPayload (args : BuildArgs) (pkg : Pkg) : String :=
  ⟨joinChar '\n' (encodeLines args pkg)⟩

/-- `encodeBuildArgs`: the args prefix produced for CDN URLs. -/
def encodeBuildArgs (args : BuildArgs) (pkg : Pkg) : String :=
  btoaUrl (encodeBuildArgsPayload args pkg)

/-- Parses one alias item `from:to`. -/
def parseAliasItem (item : List Char) : Option (String × String) :=
  (splitFirst ':' item).bind (fun p =>
    if p.1 ≠ [] ∧ p.2 ≠ [] then some ((⟨p.1⟩ : String), (⟨p.2⟩ : String)) else none)

/-- Parses one dependency item `name@version` (the version follows the
last `@`, so scoped names survive). -/
def parseDepItem (item : List Char) : Option Pkg :=
  (splitLast '@' item).bind (fun p =>
    if p.1 ≠ [] ∧ p.2 ≠ [] then
      some { Name := (⟨p.1⟩ : String), Version := (⟨p.2⟩ : String) }
    else none)

/-- Parses one plain set item (must be nonempty). -/
def parseStrItem (item : List Char) : Option String :=
  if item ≠ [] then some (⟨item⟩ : String) else none

/-- Applies one decoded payload line to the accumulated `BuildArgs`;
unknown keys are rejected. -/
def applyArgLine (args : BuildArgs) (line : List Char) : Option BuildArgs :=
  (splitFirst ':' line).bind (fun kv =>
    if kv.1 = "alias".data then
      ((splitChar ',' kv.2).mapM parseAliasItem).map (fun es => { args with aliasMap := es })
    else if kv.1 = "deps".data then
      ((splitChar ',' kv.2).mapM parseDepItem).map (fun ps => { args with deps := ps })
    else if kv.1 = "external".data then
      ((splitChar ',' kv.2).mapM parseStrItem).map (fun ss => { args with external := ss })
    else if kv.1 = "exports".data then
      ((splitChar ',' kv.2).mapM parseStrItem).map (fun ss => { args with exports := ss })
    else if kv.1 = "conditions".data then
      ((splitChar ',' kv.2).mapM parseStrItem).map (fun ss => { args with conditions := ss })
    else if kv.1 = "jsxRuntime".data then
      (parseDepItem kv.2).map (fun p => { args with jsxRuntime := some p })
    else if kv.1 = "externalRequire".data then
      if kv.2 = ['1'] then some { args with externalRequire := true } else none
    else if kv.1 = "keepNames".data then
      if kv.2 = ['1'] then some { args with keepNames := true } else none
    else if kv.1 = "ignoreAnnotations".data then
      if kv.2 = ['1'] then some { args with ignoreAnnotations := true } else none
    else none)

/-- Decodes the payload (after the base64 envelope). -/
def decodeBuildArgsPayload (s : String) : Option BuildArgs :=
  if s.data.isEmpty then some {} else (splitChar '\n' s.data).foldlM applyArgLine {}

/-- `decodeBuildArgs`: inverse of `encodeBuildArgs` up to normalization. -/
def decodeBuildArgs (s : String) : Option BuildArgs :=
  (atobUrl s).bind decodeBuildArgsPayload

/-- The normal form the codec round-trips to: set-valued fields sorted,
unit aliases and self entries removed, `react` dropped from the deps of
`react-dom`. -/
def normalizeBuildArgs (args : BuildArgs) (pkg : Pkg) : BuildArgs :=
  { aliasMap := keptAlias args pkg
    deps := keptDeps args pkg
    external := sortByKey id args.external
    exports := sortByKey id args.exports
    conditions := sortByKey id args.conditions
    jsxRuntime := args.jsxRuntime
    externalRequire := args.externalRequire
    keepNames := args.keepNames
    ignoreAnnotations := args.ignoreAnnotations }

/-- A payload atom: nonempty, ASCII, free of the separators `,`, `\n`. -/
def ValidAtom (s : String) : Prop :=
  s.data ≠ [] ∧ ∀ c ∈ s.data, c.toNat < 128 ∧ c ≠ ',' ∧ c ≠ '\n'

instance : DecidablePred ValidAtom := fun s => by
  unfold ValidAtom
  infer_instance

/-- Validity of a `name@version` pair: both atoms, the version free of
`@` so that the last `@` is the separator, and no sub-module data (the
codec serializes only the name and version). -/
def ValidPkgAtom (p : Pkg) : Prop :=
  ValidAtom p.Name ∧ ValidAtom p.Version ∧ (∀ c ∈ p.Version.data, c ≠ '@') ∧
    p.Submodule = "" ∧ p.Subpath = "" ∧ p.FromGithub = false

instance : DecidablePred ValidPkgAtom := fun p => by
  unfold ValidPkgAtom
  infer_instance

/-- The arguments a request handler can actually produce: every stored
string is a payload atom, alias keys are colon-free. -/
def ValidBuildArgs (args : BuildArgs) : Prop :=
  (∀ e ∈ args.aliasMap, (ValidAtom e.1 ∧ ∀ c ∈ e.1.data, c ≠ ':') ∧ ValidAtom e.2) ∧
  (∀ p ∈ args.deps, ValidPkgAtom p) ∧
  (∀ s ∈ args.external, ValidAtom s) ∧
  (∀ s ∈ args.exports, ValidAtom s) ∧
  (∀ s ∈ args.conditions, ValidAtom s) ∧
  (∀ p ∈ args.jsxRuntime, ValidPkgAtom p)

instance : DecidablePred ValidBuildArgs := fun args => by
  unfold ValidBuildArgs
  infer_instance

lemma mem_insertByKey {α : Type} (key : α → String) (x y : α) (l : List α)
    (h : y ∈ insertByKey key x l) : y = x ∨ y ∈ l := by
  induction l with
  | nil => simpa [insertByKey] using h
  | cons z zs ih =>
      rw [insertByKey] at h
      by_cases hle : strLe (key x) (key z)
      · rw [if_pos hle] at h
        simpa using h
      · rw [if_neg hle] at h
        rcases List.mem_cons.mp h with hz | hrest
        · exact Or.inr (by simp [hz])
        · rcases ih hrest with h1 | h2
          · exact Or.inl h1
          · exact Or.inr (by simp [h2])

lemma mem_sortByKey {α : Type} (key : α → String) (y : α) (l : List α)
    (h : y ∈ sortByKey key l) : y ∈ l := by
  induction l with
  | nil => simpa [sortByKey] using h
  | cons z zs ih =>
      rw [sortByKey] at h
      rcases mem_insertByKey key z y _ h with h1 | h2
      · simp [h1]
      · exact List.mem_cons.mpr (Or.inr (ih h2))

lemma parseAliasItem_print (e : String × String)
    (hk : ValidAtom e.1) (hkc : ∀ c ∈ e.1.data, c ≠ ':') (hv : ValidAtom e.2) :
    parseAliasItem (printAliasEntry e) = some e := by
  unfold parseAliasItem printAliasEntry
  rw [splitFirst_sepfree_append ':' _ _ hkc]
  simp only [Option.some_bind]
  rw [if_pos ⟨hk.1, hv.1⟩]

lemma parseDepItem_print (p : Pkg) (h : ValidPkgAtom p) :
    parseDepItem (printDepEntry p) = some p := by
  obtain ⟨hn, hv, hat, hsm, hsp, hgh⟩ := h
  unfold parseDepItem printDepEntry
  rw [splitLast_sepfree_append '@' _ _ hat]
  simp only [Option.some_bind]
  rw [if_pos ⟨hn.1, hv.1⟩]
  cases p
  simp only at hsm hsp hgh
  subst hsm hsp hgh
  rfl

lemma mapM_parseAliasItem (es : List (String × String))
    (h : ∀ e ∈ es, (ValidAtom e.1 ∧ ∀ c ∈ e.1.data, c ≠ ':') ∧ ValidAtom e.2) :
    (es.map printAliasEntry).mapM parseAliasItem = some es := by
  induction es with
  | nil => rfl
  | cons e es ih =>
      obtain ⟨⟨hk, hkc⟩, hv⟩ := h e (by simp)
      rw [List.map_cons, List.mapM_cons, parseAliasItem_print e hk hkc hv,
        ih (fun x hx => h x (by simp [hx]))]
      rfl

lemma mapM_parseDepItem (ps : List Pkg) (h : ∀ p ∈ ps, ValidPkgAtom p) :
    (ps.map printDepEntry).mapM parseDepItem = some ps := by
  induction ps with
  | nil => rfl
  | cons p ps ih =>
      rw [List.map_cons, List.mapM_cons, parseDepItem_print p (h p (by simp)),
        ih (fun x hx => h x (by simp [hx]))]
      rfl

lemma mapM_parseStrItem (ss : List String) (h : ∀ s ∈ ss, ValidAtom s) :
    (ss.map String.data).mapM parseStrItem = some ss := by
  induction ss with
  | nil => rfl
  | cons s ss ih =>
      have hne : s.data ≠ [] := (h s (by simp)).1
      have hhead : parseStrItem s.data = some s := by
        unfold parseStrItem
        rw [if_pos hne]
      rw [List.map_cons, List.mapM_cons, hhead, ih (fun x hx => h x (by simp [hx]))]
      rfl

lemma itemChars_printAlias (e : String × String)
    (hk : ValidAtom e.1) (hv : ValidAtom e.2) :
    ∀ c ∈ printAliasEntry e, c.toNat < 128 ∧ c ≠ ',' ∧ c ≠ '\n' := by
  intro c hc
  unfold printAliasEntry at hc
  rcases List.mem_append.mp hc with h1 | h2
  · exact hk.2 c h1
  · rcases List.mem_cons.mp h2 with h3 | h4
    · subst h3
      refine ⟨by decide, by decide, by decide⟩
    · exact hv.2 c h4

lemma itemChars_printDep (p : Pkg) (h : ValidPkgAtom p) :
    ∀ c ∈ printDepEntry p, c.toNat < 128 ∧ c ≠ ',' ∧ c ≠ '\n' := by
  intro c hc
  unfold printDepEntry at hc
  rcases List.mem_append.mp hc with h1 | h2
  · exact h.1.2 c h1
  · rcases List.mem_cons.mp h2 with h3 | h4
    · subst h3
      refine ⟨by decide, by decide, by decide⟩
    · exact h.2.1.2 c h4

lemma mem_joinChar (sep : Char) (gs : List (List Char)) (c : Char)
    (h : c ∈ joinChar sep gs) : c = sep ∨ ∃ g ∈ gs, c ∈ g := by
  induction gs with
  | nil => simp [joinChar] at h
  | cons g gs ih =>
      cases gs with
      | nil =>
          rw [joinChar] at h
          exact Or.inr ⟨g, by simp, h⟩
      | cons g2 gs2 =>
          rw [joinChar] at h
          rcases List.mem_append.mp h with h1 | h2
          · exact Or.inr ⟨g, by simp, h1⟩
          · rcases List.mem_cons.mp h2 with h3 | h4
            · exact Or.inl h3
            · rcases ih h4 with h5 | ⟨g3, hg3, hc3⟩
              · exact Or.inl h5
              · exact Or.inr ⟨g3, by simp [hg3], hc3⟩

lemma joinComma_chars (items : List (List Char))
    (h : ∀ i ∈ items, ∀ c ∈ i, c.toNat < 128 ∧ c ≠ ',' ∧ c ≠ '\n') :
    ∀ c ∈ joinChar ',' items, c.toNat < 128 ∧ c ≠ '\n' := by
  intro c hc
  rcases mem_joinChar ',' items c hc with h1 | ⟨g, hg, hcg⟩
  · subst h1
    exact ⟨by decide, by decide⟩
  · exact ⟨(h g hg c hcg).1, (h g hg c hcg).2.2⟩

lemma joinComma_commafree (items : List (List Char))
    (h : ∀ i ∈ items, ∀ c ∈ i, c.toNat < 128 ∧ c ≠ ',' ∧ c ≠ '\n') (i : List Char)
    (hi : i ∈ items) : ∀ c ∈ i, c ≠ ',' :=
  fun c hc => (h i hi c hc).2.1

lemma applyArgLine_alias (a : BuildArgs) (es : List (String × String))
    (hval : ∀ e ∈ es, (ValidAtom e.1 ∧ ∀ c ∈ e.1.data, c ≠ ':') ∧ ValidAtom e.2)
    (hne : es ≠ []) :
    applyArgLine a ("alias".data ++ ':' :: joinChar ',' (es.map printAliasEntry)) =
      some { a with aliasMap := es } := by
  unfold applyArgLine
  rw [splitFirst_sepfree_append ':' _ _ (by decide)]
  simp only [Option.some_bind, if_true]
  have hsplit : splitChar ',' (joinChar ',' (es.map printAliasEntry)) =
      es.map printAliasEntry :=
    splitChar_joinChar ',' _ (by simpa using hne) (fun g hg c hc => by
      obtain ⟨e, he, rfl⟩ := List.mem_map.mp hg
      exact (itemChars_printAlias e (hval e he).1.1 (hval e he).2 c hc).2.1)
  rw [hsplit, mapM_parseAliasItem es hval]
  rfl

lemma applyArgLine_deps (a : BuildArgs) (ps : List Pkg)
    (hval : ∀ p ∈ ps, ValidPkgAtom p) (hne : ps ≠ []) :
    applyArgLine a ("deps".data ++ ':' :: joinChar ',' (ps.map printDepEntry)) =
      some { a with deps := ps } := by
  unfold applyArgLine
  rw [splitFirst_sepfree_append ':' _ _ (by decide)]
  simp only [Option.some_bind, if_true]
  rw [if_neg (by decide)]
  have hsplit : splitChar ',' (joinChar ',' (ps.map printDepEntry)) =
      ps.map printDepEntry :=
    splitChar_joinChar ',' _ (by simpa using hne) (fun g hg c hc => by
      obtain ⟨p, hp, rfl⟩ := List.mem_map.mp hg
      exact (itemChars_printDep p (hval p hp) c hc).2.1)
  rw [hsplit, mapM_parseDepItem ps hval]
  rfl

lemma applyArgLine_strs (key : String) (a : BuildArgs) (ss : List String)
    (hkey : key = "external" ∨ key = "exports" ∨ key = "conditions")
    (hval : ∀ s ∈ ss, ValidAtom s) (hne : ss ≠ []) :
    applyArgLine a (key.data ++ ':' :: joinChar ',' (ss.map String.data)) =
      some (if key = "external" then { a with external := ss }
        else if key = "exports" then { a with exports := ss }
        else { a with conditions := ss }) := by
  have hsplit : splitChar ',' (joinChar ',' (ss.map String.data)) = ss.map String.data :=
    splitChar_joinChar ',' _ (by simpa using hne) (fun g hg c hc => by
      obtain ⟨s, hs, rfl⟩ := List.mem_map.mp hg
      exact ((hval s hs).2 c hc).2.1)
  rcases hkey with hk | hk | hk <;> subst hk
  · unfold applyArgLine
    rw [splitFirst_sepfree_append ':' _ _ (by decide)]
    simp only [Option.some_bind, if_true]
    rw [if_neg (by decide), if_neg (by decide), hsplit, mapM_parseStrItem ss hval]
    rfl
  · unfold applyArgLine
    rw [splitFirst_sepfree_append ':' _ _ (by decide)]
    simp only [Option.some_bind, if_true]
    rw [if_neg (by decide), if_neg (by decide), if_neg (by decide), hsplit,
      mapM_parseStrItem ss hval]
    rfl
  · unfold applyArgLine
    rw [splitFirst_sepfree_append ':' _ _ (by decide)]
    simp only [Option.some_bind, if_true]
    rw [if_neg (by decide), if_neg (by decide), if_neg (by decide), if_neg (by decide),
      hsplit, mapM_parseStrItem ss hval]
    rfl

lemma applyArgLine_jsxRuntime (a : BuildArgs) (p : Pkg) (h : ValidPkgAtom p) :
    applyArgLine a ("jsxRuntime".data ++ ':' :: printDepEntry p) =
      some { a with jsxRuntime := some p } := by
  unfold applyArgLine
  rw [splitFirst_sepfree_append ':' _ _ (by decide)]
  simp only [Option.some_bind, if_true]
  rw [if_neg (by decide), if_neg (by decide), if_neg (by decide), if_neg (by decide),
    if_neg (by decide), parseDepItem_print p h]
  rfl

lemma applyArgLine_externalRequire (a : BuildArgs) :
    applyArgLine a ("externalRequire".data ++ [':', '1']) =
      some { a with externalRequire := true } := by
  unfold applyArgLine
  rw [show "externalRequire".data ++ [':', '1'] =
    "externalRequire".data ++ ':' :: ['1'] from rfl]
  rw [splitFirst_sepfree_append ':' _ _ (by decide)]
  simp only [Option.some_bind, if_true]
  rw [if_neg (by decide), if_neg (by decide), if_neg (by decide), if_neg (by decide),
    if_neg (by decide), if_neg (by decide)]

lemma applyArgLine_keepNames (a : BuildArgs) :
    applyArgLine a ("keepNames".data ++ [':', '1']) =
      some { a with keepNames := true } := by
  unfold applyArgLine
  rw [show "keepNames".data ++ [':', '1'] = "keepNames".data ++ ':' :: ['1'] from rfl]
  rw [splitFirst_sepfree_append ':' _ _ (by decide)]
  simp only [Option.some_bind, if_true]
  rw [if_neg (by decide), if_neg (by decide), if_neg (by decide), if_neg (by decide),
    if_neg (by decide), if_neg (by decide), if_neg (by decide)]

lemma applyArgLine_ignoreAnnotations (a : BuildArgs) :
    applyArgLine a ("ignoreAnnotations".data ++ [':', '1']) =
      some { a with ignoreAnnotations := true } := by
  unfold applyArgLine
  rw [show "ignoreAnnotations".data ++ [':', '1'] =
    "ignoreAnnotations".data ++ ':' :: ['1'] from rfl]
  rw [splitFirst_sepfree_append ':' _ _ (by decide)]
  simp only [Option.some_bind, if_true]
  rw [if_neg (by decide), if_neg (by decide), if_neg (by decide), if_neg (by decide),
    if_neg (by decide), if_neg (by decide), if_neg (by decide), if_neg (by decide)]

lemma foldlM_option_cons (f : BuildArgs → List Char → Option BuildArgs)
    (x : List Char) (l : List (List Char)) (a a2 : BuildArgs)
    (hx : f a x = some a2) :
    (x :: l).foldlM f a = l.foldlM f a2 := by
  rw [List.foldlM_cons, hx]
  rfl

lemma fold_seg_alias (args : BuildArgs) (pkg : Pkg)
    (hval : ∀ e ∈ args.aliasMap, (ValidAtom e.1 ∧ ∀ c ∈ e.1.data, c ≠ ':') ∧ ValidAtom e.2)
    (a : BuildArgs) (ha : a.aliasMap = []) (rest : List (List Char)) :
    ((if (keptAlias args pkg).isEmpty then [] else
      ["alias".data ++ ':' :: joinChar ',' ((keptAlias args pkg).map printAliasEntry)]) ++
        rest).foldlM applyArgLine a =
      rest.foldlM applyArgLine { a with aliasMap := keptAlias args pkg } := by
  have hkval : ∀ e ∈ keptAlias args pkg,
      (ValidAtom e.1 ∧ ∀ c ∈ e.1.data, c ≠ ':') ∧ ValidAtom e.2 := fun e he =>
    hval e (List.mem_filter.mp (mem_sortByKey _ e _ he)).1
  by_cases hg : (keptAlias args pkg).isEmpty
  · rw [if_pos hg, List.nil_append]
    have hkept : keptAlias args pkg = [] := List.isEmpty_iff.mp hg
    rw [hkept]
    congr 1
    rw [← ha]
  · rw [if_neg hg, List.singleton_append]
    exact foldlM_option_cons _ _ _ _ _
      (applyArgLine_alias a (keptAlias args pkg) hkval
        (fun hnil => hg (by simp [hnil])))

lemma fold_seg_deps (args : BuildArgs) (pkg : Pkg)
    (hval : ∀ p ∈ args.deps, ValidPkgAtom p)
    (a : BuildArgs) (ha : a.deps = []) (rest : List (List Char)) :
    ((if (keptDeps args pkg).isEmpty then [] else
      ["deps".data ++ ':' :: joinChar ',' ((keptDeps args pkg).map printDepEntry)]) ++
        rest).foldlM applyArgLine a =
      rest.foldlM applyArgLine { a with deps := keptDeps args pkg } := by
  have hkval : ∀ p ∈ keptDeps args pkg, ValidPkgAtom p := fun p hp =>
    hval p (List.mem_filter.mp (mem_sortByKey _ p _ hp)).1
  by_cases hg : (keptDeps args pkg).isEmpty
  · rw [if_pos hg, List.nil_append]
    have hkept : keptDeps args pkg = [] := List.isEmpty_iff.mp hg
    rw [hkept]
    congr 1
    rw [← ha]
  · rw [if_neg hg, List.singleton_append]
    exact foldlM_option_cons _ _ _ _ _
      (applyArgLine_deps a (keptDeps args pkg) hkval (fun hnil => hg (by simp [hnil])))

lemma fold_seg_external (xs : List String)
    (hval : ∀ s ∈ xs, ValidAtom s)
    (a : BuildArgs) (ha : a.external = []) (rest : List (List Char)) :
    ((if (sortByKey id xs).isEmpty then [] else
      ["external".data ++ ':' :: joinChar ',' ((sortByKey id xs).map String.data)]) ++
        rest).foldlM applyArgLine a =
      rest.foldlM applyArgLine { a with external := sortByKey id xs } := by
  have hkval : ∀ s ∈ sortByKey id xs, ValidAtom s := fun s hs =>
    hval s (mem_sortByKey _ s _ hs)
  by_cases hg : (sortByKey id xs).isEmpty
  · rw [if_pos hg, List.nil_append]
    have hkept : sortByKey id xs = [] := List.isEmpty_iff.mp hg
    rw [hkept]
    congr 1
    rw [← ha]
  · rw [if_neg hg, List.singleton_append]
    have h := applyArgLine_strs "external" a (sortByKey id xs) (Or.inl rfl) hkval
      (fun hnil => hg (by simp [hnil]))
    rw [if_pos rfl] at h
    exact foldlM_option_cons _ _ _ _ _ h

lemma fold_seg_exports (xs : List String)
    (hval : ∀ s ∈ xs, ValidAtom s)
    (a : BuildArgs) (ha : a.exports = []) (rest : List (List Char)) :
    ((if (sortByKey id xs).isEmpty then [] else
      ["exports".data ++ ':' :: joinChar ',' ((sortByKey id xs).map String.data)]) ++
        rest).foldlM applyArgLine a =
      rest.foldlM applyArgLine { a with exports := sortByKey id xs } := by
  have hkval : ∀ s ∈ sortByKey id xs, ValidAtom s := fun s hs =>
    hval s (mem_sortByKey _ s _ hs)
  by_cases hg : (sortByKey id xs).isEmpty
  · rw [if_pos hg, List.nil_append]
    have hkept : sortByKey id xs = [] := List.isEmpty_iff.mp hg
    rw [hkept]
    congr 1
    rw [← ha]
  · rw [if_neg hg, List.singleton_append]
    have h := applyArgLine_strs "exports" a (sortByKey id xs) (Or.inr (Or.inl rfl)) hkval
      (fun hnil => hg (by simp [hnil]))
    rw [if_neg (by decide), if_pos rfl] at h
    exact foldlM_option_cons _ _ _ _ _ h

lemma fold_seg_conditions (xs : List String)
    (hval : ∀ s ∈ xs, ValidAtom s)
    (a : BuildArgs) (ha : a.conditions = []) (rest : List (List Char)) :
    ((if (sortByKey id xs).isEmpty then [] else
      ["conditions".data ++ ':' :: joinChar ',' ((sortByKey id xs).map String.data)]) ++
        rest).foldlM applyArgLine a =
      rest.foldlM applyArgLine { a with conditions := sortByKey id xs } := by
  have hkval : ∀ s ∈ sortByKey id xs, ValidAtom s := fun s hs =>
    hval s (mem_sortByKey _ s _ hs)
  by_cases hg : (sortByKey id xs).isEmpty
  · rw [if_pos hg, List.nil_append]
    have hkept : sortByKey id xs = [] := List.isEmpty_iff.mp hg
    rw [hkept]
    congr 1
    rw [← ha]
  · rw [if_neg hg, List.singleton_append]
    have h := applyArgLine_strs "conditions" a (sortByKey id xs)
      (Or.inr (Or.inr rfl)) hkval (fun hnil => hg (by simp [hnil]))
    rw [if_neg (by decide), if_neg (by decide)] at h
    exact foldlM_option_cons _ _ _ _ _ h

lemma fold_seg_jsxRuntime (o : Option Pkg) (hval : ∀ p ∈ o, ValidPkgAtom p)
    (a : BuildArgs) (ha : a.jsxRuntime = none) (rest : List (List Char)) :
    (jsxSeg o ++ rest).foldlM applyArgLine a =
      rest.foldlM applyArgLine { a with jsxRuntime := o } := by
  cases o with
  | none =>
      rw [show jsxSeg none = [] from rfl, List.nil_append]
      congr 1
      rw [← ha]
  | some p =>
      rw [show jsxSeg (some p) = ["jsxRuntime".data ++ ':' :: printDepEntry p] from rfl,
        List.singleton_append]
      exact foldlM_option_cons _ _ _ _ _
        (applyArgLine_jsxRuntime a p (hval p (by simp)))

lemma fold_seg_externalRequire (flag : Bool)
    (a : BuildArgs) (ha : a.externalRequire = false) (rest : List (List Char)) :
    ((if flag then ["externalRequire".data ++ [':', '1']] else []) ++
        rest).foldlM applyArgLine a =
      rest.foldlM applyArgLine { a with externalRequire := flag } := by
  cases flag with
  | false =>
      rw [if_neg (by decide), List.nil_append]
      congr 1
      rw [← ha]
  | true =>
      rw [if_pos rfl, List.singleton_append]
      exact foldlM_option_cons _ _ _ _ _ (applyArgLine_externalRequire a)

lemma fold_seg_keepNames (flag : Bool)
    (a : BuildArgs) (ha : a.keepNames = false) (rest : List (List Char)) :
    ((if flag then ["keepNames".data ++ [':', '1']] else []) ++
        rest).foldlM applyArgLine a =
      rest.foldlM applyArgLine { a with keepNames := flag } := by
  cases flag with
  | false =>
      rw [if_neg (by decide), List.nil_append]
      congr 1
      rw [← ha]
  | true =>
      rw [if_pos rfl, List.singleton_append]
      exact foldlM_option_cons _ _ _ _ _ (applyArgLine_keepNames a)

lemma fold_seg_ignoreAnnotations (flag : Bool)
    (a : BuildArgs) (ha : a.ignoreAnnotations = false) :
    ((if flag then ["ignoreAnnotations".data ++ [':', '1']] else [])).foldlM
        applyArgLine a =
      some { a with ignoreAnnotations := flag } := by
  cases flag with
  | false =>
      rw [if_neg (by decide)]
      show some a = _
      congr 1
      rw [← ha]
  | true =>
      rw [if_pos rfl]
      show applyArgLine a _ >>= _ = _
      rw [applyArgLine_ignoreAnnotations a]
      rfl

lemma keyLine_ok (key : String) (v : List Char)
    (hkey : key.data ≠ [] ∧ ∀ c ∈ key.data, c.toNat < 128 ∧ c ≠ '\n')
    (hv : ∀ c ∈ v, c.toNat < 128 ∧ c ≠ '\n') :
    (key.data ++ ':' :: v) ≠ [] ∧ ∀ c ∈ key.data ++ ':' :: v, c.toNat < 128 ∧ c ≠ '\n' := by
  refine ⟨by simp [hkey.1], ?_⟩
  intro c hc
  rcases List.mem_append.mp hc with h1 | h2
  · exact hkey.2 c h1
  · rcases List.mem_cons.mp h2 with h3 | h4
    · subst h3
      exact ⟨by decide, by decide⟩
    · exact hv c h4

lemma encodeLines_lines_ok (args : BuildArgs) (pkg : Pkg) (h : ValidBuildArgs args) :
    ∀ l ∈ encodeLines args pkg, l ≠ [] ∧ ∀ c ∈ l, c.toNat < 128 ∧ c ≠ '\n' := by
  obtain ⟨hA, hD, hE, hX, hC, hJ⟩ := h
  intro l hl
  unfold encodeLines at hl
  rcases List.mem_append.mp hl with hl | hl
  · by_cases hg : (keptAlias args pkg).isEmpty
    · rw [if_pos hg] at hl
      cases hl
    · rw [if_neg hg] at hl
      rcases List.mem_singleton.mp hl with rfl
      refine keyLine_ok "alias" _ ⟨by decide, by decide⟩ (joinComma_chars _ ?_)
      intro i hi c hc
      obtain ⟨e, he, rfl⟩ := List.mem_map.mp hi
      have he2 := hA e (List.mem_filter.mp (mem_sortByKey _ e _ he)).1
      exact itemChars_printAlias e he2.1.1 he2.2 c hc
  rcases List.mem_append.mp hl with hl | hl
  · by_cases hg : (keptDeps args pkg).isEmpty
    · rw [if_pos hg] at hl
      cases hl
    · rw [if_neg hg] at hl
      rcases List.mem_singleton.mp hl with rfl
      refine keyLine_ok "deps" _ ⟨by decide, by decide⟩ (joinComma_chars _ ?_)
      intro i hi c hc
      obtain ⟨p, hp, rfl⟩ := List.mem_map.mp hi
      exact itemChars_printDep p (hD p (List.mem_filter.mp (mem_sortByKey _ p _ hp)).1) c hc
  rcases List.mem_append.mp hl with hl | hl
  · by_cases hg : (sortByKey id args.external).isEmpty
    · rw [if_pos hg] at hl
      cases hl
    · rw [if_neg hg] at hl
      rcases List.mem_singleton.mp hl with rfl
      refine keyLine_ok "external" _ ⟨by decide, by decide⟩ (joinComma_chars _ ?_)
      intro i hi c hc
      obtain ⟨s, hs, rfl⟩ := List.mem_map.mp hi
      exact (hE s (mem_sortByKey _ s _ hs)).2 c hc
  rcases List.mem_append.mp hl with hl | hl
  · by_cases hg : (sortByKey id args.exports).isEmpty
    · rw [if_pos hg] at hl
      cases hl
    · rw [if_neg hg] at hl
      rcases List.mem_singleton.mp hl with rfl
      refine keyLine_ok "exports" _ ⟨by decide, by decide⟩ (joinComma_chars _ ?_)
      intro i hi c hc
      obtain ⟨s, hs, rfl⟩ := List.mem_map.mp hi
      exact (hX s (mem_sortByKey _ s _ hs)).2 c hc
  rcases List.mem_append.mp hl with hl | hl
  · by_cases hg : (sortByKey id args.conditions).isEmpty
    · rw [if_pos hg] at hl
      cases hl
    · rw [if_neg hg] at hl
      rcases List.mem_singleton.mp hl with rfl
      refine keyLine_ok "conditions" _ ⟨by decide, by decide⟩ (joinComma_chars _ ?_)
      intro i hi c hc
      obtain ⟨s, hs, rfl⟩ := List.mem_map.mp hi
      exact (hC s (mem_sortByKey _ s _ hs)).2 c hc
  rcases List.mem_append.mp hl with hl | hl
  · cases ho : args.jsxRuntime with
    | none =>
        rw [ho, show jsxSeg none = [] from rfl] at hl
        cases hl
    | some p =>
        rw [ho, show jsxSeg (some p) =
          ["jsxRuntime".data ++ ':' :: printDepEntry p] from rfl] at hl
        rcases List.mem_singleton.mp hl with rfl
        have hp := hJ p (by rw [ho]; rfl)
        refine keyLine_ok "jsxRuntime" _ ⟨by decide, by decide⟩ ?_
        intro c hc
        have := itemChars_printDep p hp c hc
        exact ⟨this.1, this.2.2⟩
  rcases List.mem_append.mp hl with hl | hl
  · cases hf : args.externalRequire
    · rw [hf] at hl
      cases hl
    · rw [hf, if_pos rfl] at hl
      rcases List.mem_singleton.mp hl with rfl
      exact ⟨by decide, by decide⟩
  rcases List.mem_append.mp hl with hl | hl
  · cases hf : args.keepNames
    · rw [hf] at hl
      cases hl
    · rw [hf, if_pos rfl] at hl
      rcases List.mem_singleton.mp hl with rfl
      exact ⟨by decide, by decide⟩
  · cases hf : args.ignoreAnnotations
    · rw [hf] at hl
      cases hl
    · rw [hf, if_pos rfl] at hl
      rcases List.mem_singleton.mp hl with rfl
      exact ⟨by decide, by decide⟩

lemma joinChar_ne_nil (sep : Char) (gs : List (List Char)) (hgs : gs ≠ [])
    (hne : ∀ g ∈ gs, g ≠ []) : joinChar sep gs ≠ [] := by
  cases gs with
  | nil => exact absurd rfl hgs
  | cons g gs2 =>
      cases gs2 with
      | nil => exact hne g (by simp)
      | cons g2 gs3 =>
          rw [joinChar]
          intro hcontra
          rcases List.append_eq_nil.mp hcontra with ⟨-, h2⟩
          cases h2

lemma encodeLines_nil_normalize (args : BuildArgs) (pkg : Pkg)
    (h0 : encodeLines args pkg = []) :
    normalizeBuildArgs args pkg = {} := by
  unfold encodeLines at h0
  simp only [List.append_eq_nil] at h0
  obtain ⟨h1, h2, h3, h4, h5, h6, h7, h8, h9⟩ := h0
  have k1 : keptAlias args pkg = [] := by
    by_cases hg : (keptAlias args pkg).isEmpty
    · exact List.isEmpty_iff.mp hg
    · rw [if_neg hg] at h1
      cases h1
  have k2 : keptDeps args pkg = [] := by
    by_cases hg : (keptDeps args pkg).isEmpty
    · exact List.isEmpty_iff.mp hg
    · rw [if_neg hg] at h2
      cases h2
  have k3 : sortByKey id args.external = [] := by
    by_cases hg : (sortByKey id args.external).isEmpty
    · exact List.isEmpty_iff.mp hg
    · rw [if_neg hg] at h3
      cases h3
  have k4 : sortByKey id args.exports = [] := by
    by_cases hg : (sortByKey id args.exports).isEmpty
    · exact List.isEmpty_iff.mp hg
    · rw [if_neg hg] at h4
      cases h4
  have k5 : sortByKey id args.conditions = [] := by
    by_cases hg : (sortByKey id args.conditions).isEmpty
    · exact List.isEmpty_iff.mp hg
    · rw [if_neg hg] at h5
      cases h5
  have k6 : args.jsxRuntime = none := by
    cases ho : args.jsxRuntime with
    | none => rfl
    | some p =>
        rw [ho, show jsxSeg (some p) =
          ["jsxRuntime".data ++ ':' :: printDepEntry p] from rfl] at h6
        cases h6
  have k7 : args.externalRequire = false := by
    cases hf : args.externalRequire
    · rfl
    · rw [hf, if_pos rfl] at h7
      cases h7
  have k8 : args.keepNames = false := by
    cases hf : args.keepNames
    · rfl
    · rw [hf, if_pos rfl] at h8
      cases h8
  have k9 : args.ignoreAnnotations = false := by
    cases hf : args.ignoreAnnotations
    · rfl
    · rw [hf, if_pos rfl] at h9
      cases h9
  unfold normalizeBuildArgs
  rw [k1, k2, k3, k4, k5, k6, k7, k8, k9]

lemma decodePayload_encodePayload (args : BuildArgs) (pkg : Pkg)
    (h : ValidBuildArgs args) :
    decodeBuildArgsPayload (encodeBuildArgsPayload args pkg) =
      some (normalizeBuildArgs args pkg) := by
  by_cases h0 : encodeLines args pkg = []
  · unfold decodeBuildArgsPayload encodeBuildArgsPayload
    rw [h0]
    rw [encodeLines_nil_normalize args pkg h0]
    rfl
  · have hok := encodeLines_lines_ok args pkg h
    have hjoin_ne : joinChar '\n' (encodeLines args pkg) ≠ [] := by
      cases hlines : encodeLines args pkg with
      | nil => exact absurd hlines h0
      | cons l ls =>
          refine joinChar_ne_nil '\n' _ (by simp) ?_
          intro g hg
          rw [← hlines] at hg
          exact (hok g hg).1
    unfold decodeBuildArgsPayload encodeBuildArgsPayload
    rw [if_neg (by simpa [List.isEmpty_iff] using hjoin_ne)]
    have hsplit : splitChar '\n' (joinChar '\n' (encodeLines args pkg)) =
        encodeLines args pkg :=
      splitChar_joinChar '\n' _ h0 (fun g hg c hc => ((hok g hg).2 c hc).2)
    show (splitChar '\n' (joinChar '\n' (encodeLines args pkg))).foldlM applyArgLine {} = _
    rw [hsplit]
    obtain ⟨hA, hD, hE, hX, hC, hJ⟩ := h
    unfold encodeLines
    rw [fold_seg_alias args pkg hA {} rfl]
    rw [fold_seg_deps args pkg hD _ rfl]
    rw [fold_seg_external args.external hE _ rfl]
    rw [fold_seg_exports args.exports hX _ rfl]
    rw [fold_seg_conditions args.conditions hC _ rfl]
    rw [fold_seg_jsxRuntime args.jsxRuntime hJ _ rfl]
    rw [fold_seg_externalRequire args.externalRequire _ rfl]
    rw [fold_seg_keepNames args.keepNames _ rfl]
    rw [fold_seg_ignoreAnnotations args.ignoreAnnotations _ rfl]
    rfl

lemma encodePayload_ascii (args : BuildArgs) (pkg : Pkg) (h : ValidBuildArgs args) :
    ∀ c ∈ (encodeBuildArgsPayload args pkg).data, c.toNat < 128 := by
  intro c hc
  have hok := encodeLines_lines_ok args pkg h
  have hc2 : c ∈ joinChar '\n' (encodeLines args pkg) := hc
  rcases mem_joinChar '\n' _ c hc2 with h1 | ⟨g, hg, hcg⟩
  · subst h1
    decide
  · exact ((hok g hg).2 c hcg).1

/-- C1: decoding the args-prefix string produced by encoding `(a, p)`
yields `a` again up to normalization — set-valued fields come back
lexicographically sorted, unit aliases and entries naming the package
itself are removed, and the react-dom→react equalization drops the
pinned `react` dependency — so the encoder is a pure function of the
logical arguments and carries all remaining information. -/
theorem decodeBuildArgs_encodeBuildArgs (args : BuildArgs) (pkg : Pkg)
    (h : ValidBuildArgs args) :
    decodeBuildArgs (encodeBuildArgs args pkg) =
      some (normalizeBuildArgs args pkg) := by
  have hbytes : ∀ b ∈ (encodeBuildArgsPayload args pkg).data.map Char.toNat, b < 256 := by
    intro b hb
    obtain ⟨c, hc, rfl⟩ := List.mem_map.mp hb
    exact lt_trans (encodePayload_ascii args pkg h c hc) (by norm_num)
  have hmap : ((encodeBuildArgsPayload args pkg).data.map Char.toNat).map Char.ofNat =
      (encodeBuildArgsPayload args pkg).data := by
    rw [List.map_map]
    exact List.map_id'' (fun c => Char.ofNat_toNat c) _
  unfold decodeBuildArgs encodeBuildArgs btoaUrl atobUrl
  rw [show (String.mk (b64EncodeBytes
    ((encodeBuildArgsPayload args pkg).data.map Char.toNat))).data =
    b64EncodeBytes ((encodeBuildArgsPayload args pkg).data.map Char.toNat) from rfl]
  rw [b64_roundtrip _ hbytes]
  simp only [Option.map_some', Option.some_bind]
  rw [hmap]
  show decodeBuildArgsPayload (encodeBuildArgsPayload args pkg) = _
  exact decodePayload_encodePayload args pkg h

/-- The `BuildArgs` of `TestEncodeBuildArgs` in
`server/build_args_test.go`. -/
def testBuildArgs : BuildArgs :=
  { aliasMap := [("a", "b")]
    deps := [{ Name := "c", Version := "1.0.0" }, { Name := "d", Version := "1.0.0" },
      { Name := "e", Version := "1.0.0" }, { Name := "foo", Version := "1.0.0" }]
    external := ["baz", "bar"]
    exports := ["baz", "bar"]
    conditions := ["react-server"]
    jsxRuntime := some { Name := "react", Version := "18.2.0" }
    externalRequire := true
    keepNames := true
    ignoreAnnotations := true }

/-- Witness for C1, mirroring `TestEncodeBuildArgs`: encoding for package
`foo` and decoding returns the args with the `foo` dependency removed,
the sets sorted, and every other field intact. -/
theorem decodeBuildArgs_encodeBuildArgs_witness :
    decodeBuildArgs (encodeBuildArgs testBuildArgs { Name := "foo", Version := "" }) =
      some (normalizeBuildArgs testBuildArgs { Name := "foo", Version := "" }) ∧
    normalizeBuildArgs testBuildArgs { Name := "foo", Version := "" } =
      { aliasMap := [("a", "b")]
        deps := [{ Name := "c", Version := "1.0.0" }, { Name := "d", Version := "1.0.0" },
          { Name := "e", Version := "1.0.0" }]
        external := ["bar", "baz"]
        exports := ["bar", "baz"]
        conditions := ["react-server"]
        jsxRuntime := some { Name := "react", Version := "18.2.0" }
        externalRequire := true
        keepNames := true
        ignoreAnnotations := true } :=
  ⟨decodeBuildArgs_encodeBuildArgs testBuildArgs { Name := "foo", Version := "" } (by decide), by decide⟩

/-! ### External-import resolution of the build job (`server/build.go`) -/

/-- The `?deps` query filter of `server/router.go` lines 838-856: entries
named `react` are dropped when the requested package is `react-dom`, and
entries naming the package itself are dropped; `deps.Has` guards
duplicates (and, being always false, never fires). -/
def routerDepsFilter (pkgName : String) (parsed : List Pkg) : PkgSlice :=
  parsed.foldl (fun (deps : PkgSlice) p =>
    if pkgName == "react-dom" && p.Name == "react" then deps
    else if !(deps.Has p.Name) && p.Name != pkgName then deps ++ [p]
    else deps) []

/-- The Node built-in module names (`builtInNodeModules`; the table
itself is defined outside the included sources, modelled from Node's
documented list). -/
def builtInNodeModules (name : String) : Bool :=
  ["assert", "async_hooks", "buffer", "child_process", "cluster", "console", "constants",
   "crypto", "dgram", "diagnostics_channel", "dns", "domain", "events", "fs", "fs/promises",
   "http", "http2", "https", "inspector", "module", "net", "os", "path", "path/posix",
   "path/win32", "perf_hooks", "process", "punycode", "querystring", "readline", "repl",
   "stream", "stream/consumers", "stream/promises", "stream/web", "string_decoder", "sys",
   "timers", "timers/promises", "tls", "trace_events", "tty", "url", "util", "util/types",
   "v8", "vm", "wasi", "worker_threads", "zlib"].contains name

/-- Node built-ins that `denonext` does not support. Modelled from the
spec: the set is defined outside the included sources. -/
def denoNextUnspportedNodeModules (name : String) : Bool :=
  ["inspector", "repl", "v8", "wasi"].contains name

/-- `isRemoteSpecifier`. Modelled from the spec: absolute `data:` and
`http(s):` specifiers are left verbatim. -/
def isRemoteSpecifier (name : String) : Bool :=
  goStartsWith name "https://" || goStartsWith name "http://" || goStartsWith name "data:"

/-- `stripModuleExt` from the shared build utilities: strips one known
JS/TS extension. -/
def stripModuleExt (s : String) : String :=
  match [".js", ".mjs", ".jsx", ".ts", ".mts", ".tsx", ".cjs", ".cts"].find?
      (fun ext => ext.data.isSuffixOf s.data) with
  | some ext => goTrimSuffix s ext
  | none => s

/-- `toModuleName` applied to a sub path: the module bare name. -/
def toModuleName (subPath : String) : String :=
  stripModuleExt subPath

/-- `splitPkgPath`. Modelled from the spec: splits a specifier into the
(possibly scoped) package name and the sub path. -/
def splitPkgPath (specifier : String) : String × String :=
  let segs := (splitChar '/' specifier.data).map (fun g => (⟨g⟩ : String))
  if goStartsWith specifier "@" then
    match segs with
    | s1 :: s2 :: rest => (s1 ++ "/" ++ s2, (⟨joinChar '/' (rest.map String.data)⟩ : String))
    | _ => (specifier, "")
  else
    match segs with
    | s1 :: rest => (s1, (⟨joinChar '/' (rest.map String.data)⟩ : String))
    | _ => (specifier, "")

/-- Last path segment of a (possibly scoped) package name. -/
def lastSlashSeg (s : String) : String :=
  match splitLast '/' s.data with
  | some p => ⟨p.2⟩
  | none => s

/-- The build task of `server/build.go` (the fields the import
resolution reads). -/
structure BuildTask where
  Args : BuildArgs
  Pkg : Pkg
  Target : String
  BuildVersion : Nat
  Dev : Bool
  BasePath : String
  denoStdVersion : String := ""

/-- `BuildTask.getImportPath`. Modelled from the spec §6 persisted
layout: `/vN/name@version/[X-args/]target/module[.development].js`. -/
def BuildTask.getImportPath (task : BuildTask) (p : EsmSh.Pkg) (argsCode : String) : String :=
  let modName := if p.Submodule != "" then p.Submodule else lastSlashSeg p.Name
  task.BasePath ++ "/v" ++ toString task.BuildVersion ++ "/" ++ p.Name ++ "@" ++
    (p.Version ++ ("/" ++
      ((if argsCode != "" then "X-" ++ argsCode ++ "/" else "") ++
        (task.Target ++ ("/" ++ (modName ++
          ((if task.Dev then ".development" else "") ++ ".js")))))))

/-- The import-URL selection chain of `server/build.go` lines 671-805,
applied to one external dependency `name`. The branches appear in source
order: remote or `?external` specifiers verbatim; sub-modules of the
package being built; Node built-ins by target (the browser polyfill
lookup, which reads the embedded filesystem, is the collaborator
`browserPolyfillUrl`); the `external=*` wildcard; the `node-fetch`
polyfill; versions pinned by `?deps`; the react-dom→react equalization;
and finally the version recorded in the package manifest, resolved
through the registry collaborator `pkgInfo`. -/
def resolveImportPath (task : BuildTask)
    (npmDeps npmPeerDeps : List (String × String))
    (pkgInfo : String → String → Option (String × String))
    (browserPolyfillUrl : String → String)
    (name : String) : Option String :=
  if isRemoteSpecifier name || task.Args.external.contains name then
    some name
  else if goStartsWith name (task.Pkg.Name ++ "/") then
    let subPath := (⟨name.data.drop (task.Pkg.Name ++ "/").data.length⟩ : String)
    let subPkg : Pkg :=
      { Name := task.Pkg.Name, Version := task.Pkg.Version,
        Subpath := subPath, Submodule := toModuleName subPath }
    some (task.getImportPath subPkg (encodeBuildArgs task.Args subPkg))
  else if builtInNodeModules name then
    if task.Target == "node" then some ("node:" ++ name)
    else if task.Target == "denonext" && !denoNextUnspportedNodeModules name then
      some ("node:" ++ name)
    else if task.Target == "deno" then
      some ("https://deno.land/std@" ++ task.denoStdVersion ++ "/node/" ++ name ++ ".ts")
    else some (browserPolyfillUrl name)
  else if task.Args.external.contains "*" then
    some name
  else if name == "node-fetch" && task.Target != "node" then
    some (task.BasePath ++ "/v" ++ toString task.BuildVersion ++ "/node_fetch.js")
  else
    match task.Args.deps.find?
        (fun dep => name == dep.Name || goStartsWith name (dep.Name ++ "/")) with
    | some dep =>
      let subPath := if name == dep.Name then ""
        else (⟨name.data.drop (dep.Name ++ "/").data.length⟩ : String)
      let subPkg : Pkg :=
        { Name := dep.Name, Version := dep.Version,
          Subpath := subPath, Submodule := toModuleName subPath }
      some (task.getImportPath subPkg (encodeBuildArgs task.Args subPkg))
    | none =>
      if task.Pkg.Name == "react-dom" && name == "react" then
        some (task.getImportPath { Name := name, Version := task.Pkg.Version } "")
      else
        let nameAndSub := splitPkgPath name
        let version :=
          if nameAndSub.1 == task.Pkg.Name then task.Pkg.Version
          else match npmDeps.lookup nameAndSub.1 with
            | some v => v
            | none => match npmPeerDeps.lookup nameAndSub.1 with
              | some v => v
              | none => "latest"
        match pkgInfo nameAndSub.1 version with
        | some rp =>
          let pkg : Pkg :=
            { Name := rp.1, Version := rp.2, Subpath := nameAndSub.2,
              Submodule := toModuleName nameAndSub.2 }
          let depArgs : BuildArgs :=
            { deps := task.Args.deps, external := task.Args.external }
          some (task.getImportPath pkg (encodeBuildArgs depArgs pkg))
        | none => none

lemma routerDepsFilter_no_react (parsed : List Pkg) :
    ∀ m ∈ routerDepsFilter "react-dom" parsed, m.Name ≠ "react" := by
  have aux : ∀ (l : List Pkg) (acc : PkgSlice), (∀ m ∈ acc, m.Name ≠ "react") →
      ∀ m ∈ l.foldl (fun (deps : PkgSlice) p =>
        if ("react-dom" : String) == "react-dom" && p.Name == "react" then deps
        else if !(deps.Has p.Name) && p.Name != "react-dom" then deps ++ [p]
        else deps) acc, m.Name ≠ "react" := by
    intro l
    induction l with
    | nil => intro acc hacc m hm; exact hacc m hm
    | cons p rest ih =>
      intro acc hacc m hm
      rw [List.foldl_cons] at hm
      refine ih _ ?_ m hm
      by_cases h1 : (("react-dom" : String) == "react-dom" && p.Name == "react") = true
      · rw [if_pos h1]; exact hacc
      · rw [if_neg h1]
        by_cases h2 : (!(PkgSlice.Has acc p.Name) && p.Name != "react-dom") = true
        · rw [if_pos h2]
          intro m hm
          rcases List.mem_append.mp hm with h | h
          · exact hacc m h
          · have hmp : m = p := by simpa using h
            subst hmp
            intro hc
            apply h1
            simp [hc]
        · rw [if_neg h2]; exact hacc
  exact aux parsed [] (by simp)

lemma goStartsWith_append_slash_false (s pre : String)
    (hs : '/' ∉ s.data) : goStartsWith s (pre ++ "/") = false := by
  unfold goStartsWith
  by_contra h
  rw [Bool.not_eq_false] at h
  rcases List.isPrefixOf_iff_prefix.mp h with ⟨t, ht⟩
  apply hs
  rw [← ht]
  simp [String.data_append]

lemma sepfree_append_sep_inj (sep : Char) (a : List Char) :
    ∀ b t, sep ∉ a → sep ∉ b → a ++ sep :: t = b ++ sep :: t → a = b := by
  induction a with
  | nil =>
    intro b t _ hb h
    cases b with
    | nil => rfl
    | cons d b' =>
      simp only [List.nil_append, List.cons_append, List.cons.injEq] at h
      exact absurd (h.1 ▸ List.mem_cons_self d b') hb
  | cons c a' ih =>
    intro b t ha hb h
    cases b with
    | nil =>
      simp only [List.cons_append, List.nil_append, List.cons.injEq] at h
      exact absurd (h.1 ▸ List.mem_cons_self c a') ha
    | cons d b' =>
      simp only [List.cons_append, List.cons.injEq] at h
      have hrec := ih b' t (fun hm => ha (List.mem_cons_of_mem _ hm))
        (fun hm => hb (List.mem_cons_of_mem _ hm)) h.2
      rw [h.1, hrec]

lemma getImportPath_bare_version_inj (task : BuildTask) (n v1 v2 : String)
    (h1 : '/' ∉ v1.data) (h2 : '/' ∉ v2.data)
    (heq : task.getImportPath { Name := n, Version := v1 } "" =
           task.getImportPath { Name := n, Version := v2 } "") : v1 = v2 := by
  unfold BuildTask.getImportPath at heq
  simp only [bne_self_eq_false, Bool.false_eq_true, if_false] at heq
  have hd := congrArg String.data heq
  simp only [String.data_append, List.append_assoc] at hd
  replace hd := List.append_cancel_left hd
  replace hd := List.append_cancel_left hd
  replace hd := List.append_cancel_left hd
  replace hd := List.append_cancel_left hd
  replace hd := List.append_cancel_left hd
  replace hd := List.append_cancel_left hd
  simp only [List.singleton_append] at hd
  have hdata := sepfree_append_sep_inj '/' v1.data v2.data _ h1 h2 hd
  have hs : (⟨v1.data⟩ : String) = (⟨v2.data⟩ : String) := by rw [hdata]
  exact hs

/-- C3: for a build of `react-dom` whose `?deps` query was filtered by the
router, the deps list retains no entry named `react` (router.go:845-856),
the import URL emitted for the external dependency `react` is the one at
`react-dom`'s own version (build.go:749-755), and for any other
slash-free version V that URL differs from the URL at V — the tie-break
rule overrides the `?deps` request. -/
theorem react_dom_react_version_tiebreak
    (task : BuildTask) (parsed : List Pkg)
    (npmDeps npmPeerDeps : List (String × String))
    (pkgInfo : String → String → Option (String × String))
    (browserPolyfillUrl : String → String) (V : String)
    (hpkg : task.Pkg.Name = "react-dom")
    (hdeps : task.Args.deps = routerDepsFilter "react-dom" parsed)
    (hext : task.Args.external.contains "react" = false)
    (hstar : task.Args.external.contains "*" = false)
    (hver : '/' ∉ task.Pkg.Version.data) (hV : '/' ∉ V.data)
    (hne : V ≠ task.Pkg.Version) :
    (∀ m ∈ task.Args.deps, m.Name ≠ "react") ∧
    resolveImportPath task npmDeps npmPeerDeps pkgInfo browserPolyfillUrl "react" =
      some (task.getImportPath { Name := "react", Version := task.Pkg.Version } "") ∧
    task.getImportPath { Name := "react", Version := task.Pkg.Version } "" ≠
      task.getImportPath { Name := "react", Version := V } "" := by
  have hno : ∀ m ∈ task.Args.deps, m.Name ≠ "react" := by
    rw [hdeps]; exact routerDepsFilter_no_react parsed
  refine ⟨hno, ?_, ?_⟩
  · have hfind : task.Args.deps.find?
        (fun dep => "react" == dep.Name || goStartsWith "react" (dep.Name ++ "/")) = none := by
      rw [List.find?_eq_none]
      intro dep hdep h
      simp only [Bool.or_eq_true, beq_iff_eq] at h
      rcases h with h | h
      · exact hno dep hdep h.symm
      · rw [goStartsWith_append_slash_false "react" dep.Name (by decide)] at h
        exact Bool.false_ne_true h
    unfold resolveImportPath
    rw [hpkg, hext, hstar, hfind]
    rfl
  · intro heq
    exact hne (getImportPath_bare_version_inj task "react" task.Pkg.Version V hver hV heq).symm

/-- A concrete react-dom build task whose `?deps` query pinned
`react@18.0.0` while react-dom itself is at 18.2.0. -/
def c3Task : BuildTask :=
  { Args := { deps := routerDepsFilter "react-dom" [{ Name := "react", Version := "18.0.0" }] },
    Pkg := { Name := "react-dom", Version := "18.2.0" },
    Target := "es2022", BuildVersion := 135, Dev := false, BasePath := "" }

theorem react_dom_react_version_tiebreak_witness :
    (∀ m ∈ c3Task.Args.deps, m.Name ≠ "react") ∧
    resolveImportPath c3Task [] [] (fun _ _ => none) (fun _ => "") "react" =
      some (c3Task.getImportPath { Name := "react", Version := "18.2.0" } "") ∧
    c3Task.getImportPath { Name := "react", Version := "18.2.0" } "" ≠
      c3Task.getImportPath { Name := "react", Version := "18.0.0" } "" :=
  react_dom_react_version_tiebreak c3Task
    [{ Name := "react", Version := "18.0.0" }] [] [] (fun _ _ => none) (fun _ => "")
    "18.0.0" rfl rfl rfl rfl (by decide) (by decide) (by decide)

/-! ### CJS require() import rewriting (`server/build.go` lines 808-965) -/

/-- `isJSIdentChar`. Modelled from the spec: ASCII letters, digits,
underscore and dollar. -/
def isJSIdentChar (c : Char) : Bool :=
  (Nat.ble 97 c.toNat && Nat.ble c.toNat 122) ||
  (Nat.ble 65 c.toNat && Nat.ble c.toNat 90) ||
  (Nat.ble 48 c.toNat && Nat.ble c.toNat 57) || c == '_' || c == '$'

/-- What the `analyze` collaborator reports about a CJS dependency:
whether analysis succeeded, its named exports, whether it has a default
export, and the `module` field of its package.json. -/
structure CjsDepInfo where
  analyzeOk : Bool
  NamedExports : List String
  HasExportDefault : Bool
  ModuleField : String
deriving DecidableEq, Repr

/-- The per-call-site import-name decision of `server/build.go` lines
815-890: `p` is the output slice following the external marker (the
leading `)` of the `require(...)` call still attached); built-ins take
`default`, `node-fetch` takes `*`, a property access `.Ident` right
after the call takes the named import when `Ident` is a named export,
an ESM dependency takes `default`/`*?`/`*` by shape, a transpiled-CJS
shape takes `*`, and everything else (including failed analysis) takes
the guarded `default?`. -/
def cjsCallSiteImportName (name : String) (p : List Char)
    (info : CjsDepInfo) (hasEsModuleMarker : Bool) : String :=
  let q := match p with | ')' :: r => r | _ => p
  if builtInNodeModules name then "default"
  else if name == "node-fetch" then "*"
  else if info.analyzeOk then
    match q with
    | '.' :: rest =>
      let importName : String := ⟨rest.takeWhile isJSIdentChar⟩
      if importName != "default" && info.NamedExports.contains importName then importName
      else "default"
    | _ =>
      if info.ModuleField != "" then
        if info.HasExportDefault && info.NamedExports.length == 1 then "default"
        else if hasEsModuleMarker then "*?"
        else "*"
      else if info.NamedExports.contains "__esModule" && info.HasExportDefault then "*"
      else "default?"
  else "default?"

/-- The dedup pass of `server/build.go` lines 915-920: a sure `default`
beats `default?`, a sure `*` beats `*?`. -/
def dedupCjsImportNames (names : List String) : List String :=
  let n1 := if names.contains "default" && names.contains "default?"
    then names.filter (fun s => s != "default?") else names
  if n1.contains "*" && n1.contains "*?"
    then n1.filter (fun s => s != "*?") else n1

/-- One prepended statement of the emission switch, `server/build.go`
lines 922-958, translated verbatim (the seven special packages get const
stubs; otherwise the switch on the recorded import name). -/
def cjsImportOne (isServer : Bool)
    (target name identifier importPath eol importName : String) : String :=
  if name == "object-assign" then "const __" ++ identifier ++ "$ = Object.assign;" ++ eol
  else if name == "has" then "const __" ++ identifier ++ "$ = Object.hasOwn;" ++ eol
  else if name == "array-flatten" then
    "const __" ++ identifier ++ "$ = (a)=>a.flat(Infinity);" ++ eol
  else if name == "array-includes" then
    "const __" ++ identifier ++ "$ = (a,p,i)=>a.includes(p,i);" ++ eol
  else if name == "has-symbols" then "const __" ++ identifier ++ "$ = ()=>!0;" ++ eol
  else if name == "es6-symbol" then "const __" ++ identifier ++ "$ = Symbol;" ++ eol
  else if name == "abort-controller" then
    "const __" ++ identifier ++ "$ = globalThis.AbortController;__" ++ identifier ++
      "$.default=globalThis.AbortController;" ++ eol
  else if importName == "*" then
    "import * as __" ++ identifier ++ "$ from \"" ++ importPath ++ "\";" ++ eol
  else if importName == "*?" then
    "import * as _" ++ identifier ++ "$ from \"" ++ importPath ++ "\";" ++ eol ++
      ("const __" ++ identifier ++ "$ = Object.assign(\x7b__esModule:!0\x7d,_" ++
        identifier ++ "$);" ++ eol)
  else if importName == "default" then
    "import __" ++ identifier ++ "$ from \"" ++ importPath ++ "\";" ++ eol
  else if importName == "default?" then
    "import * as _" ++ identifier ++ "$ from \"" ++ importPath ++ "\";" ++ eol ++
      (if isServer || lexLeChars "es2020".data target.data then
        "const __" ++ identifier ++ "$ = _" ++ identifier ++ "$.default??_" ++
          identifier ++ "$;" ++ eol
      else
        "const __" ++ identifier ++ "$ = _" ++ identifier ++ "$.default!==void 0?_" ++
          identifier ++ "$.default:_" ++ identifier ++ "$;" ++ eol)
  else
    "import \x7b " ++ importName ++ " as __" ++ identifier ++ "$" ++ importName ++
      " \x7d from \"" ++ importPath ++ "\";" ++ eol

/-- The spec's star form. -/
def starImportForm (identifier importPath eol : String) : String :=
  "import * as __" ++ identifier ++ "$ from \"" ++ importPath ++ "\";" ++ eol

/-- The spec's star-wrapped form (adds `__esModule:true`). -/
def starWrapImportForm (identifier importPath eol : String) : String :=
  "import * as _" ++ identifier ++ "$ from \"" ++ importPath ++ "\";" ++ eol ++
    ("const __" ++ identifier ++ "$ = Object.assign(\x7b__esModule:!0\x7d,_" ++
      identifier ++ "$);" ++ eol)

/-- The spec's default form. -/
def defaultImportForm (identifier importPath eol : String) : String :=
  "import __" ++ identifier ++ "$ from \"" ++ importPath ++ "\";" ++ eol

/-- The spec's default-with-fallback form; `modern` selects `??` over
the `!== void 0 ? :` expansion. -/
def defaultFallbackImportForm (modern : Bool) (identifier importPath eol : String) : String :=
  "import * as _" ++ identifier ++ "$ from \"" ++ importPath ++ "\";" ++ eol ++
    (if modern then
      "const __" ++ identifier ++ "$ = _" ++ identifier ++ "$.default??_" ++
        identifier ++ "$;" ++ eol
    else
      "const __" ++ identifier ++ "$ = _" ++ identifier ++ "$.default!==void 0?_" ++
        identifier ++ "$.default:_" ++ identifier ++ "$;" ++ eol)

/-- The fifth form the switch actually emits (its default case): a
named import of one recorded export. -/
def namedImportForm (importName identifier importPath eol : String) : String :=
  "import \x7b " ++ importName ++ " as __" ++ identifier ++ "$" ++ importName ++
    " \x7d from \"" ++ importPath ++ "\";" ++ eol

/-- C5 counterexample: the call site `require("htmlparser").Parser(...)`
with `Parser` among the dependency's named exports makes the walker
record the import name `Parser`, and the emitted statement is a
named import equal to none of the claim's four forms at either
modernity. -/
theorem cjs_named_import_not_among_four_forms :
    cjsCallSiteImportName "htmlparser" ").Parser(e)".data
      { analyzeOk := true, NamedExports := ["Parser"], HasExportDefault := false,
        ModuleField := "" } false = "Parser" ∧
    (∀ modern : Bool,
      cjsImportOne false "es2022" "htmlparser" "1" "/v135/htmlparser@2.0.0/es2022/htmlparser.js"
          "" "Parser" ∉
        [starImportForm "1" "/v135/htmlparser@2.0.0/es2022/htmlparser.js" "",
         starWrapImportForm "1" "/v135/htmlparser@2.0.0/es2022/htmlparser.js" "",
         defaultImportForm "1" "/v135/htmlparser@2.0.0/es2022/htmlparser.js" "",
         defaultFallbackImportForm modern "1" "/v135/htmlparser@2.0.0/es2022/htmlparser.js" ""]) := by
  decide

/-- C5 (amended): outside the seven const-stub special packages, every
prepended statement is one of FIVE forms — star, star-wrapped, default,
default-with-fallback, or a named import — each tied to the
recorded import name, and the default-with-fallback form uses `??` when
the target is server-side or byte-wise at or above `es2020`, else the
`!== void 0 ? :` expansion. -/
theorem cjs_import_statement_forms (isServer : Bool)
    (target name identifier importPath eol importName : String)
    (hname : name ∉ ["object-assign", "has", "array-flatten", "array-includes",
      "has-symbols", "es6-symbol", "abort-controller"]) :
    (cjsImportOne isServer target name identifier importPath eol importName =
        starImportForm identifier importPath eol ∧ importName = "*") ∨
    (cjsImportOne isServer target name identifier importPath eol importName =
        starWrapImportForm identifier importPath eol ∧ importName = "*?") ∨
    (cjsImportOne isServer target name identifier importPath eol importName =
        defaultImportForm identifier importPath eol ∧ importName = "default") ∨
    (cjsImportOne isServer target name identifier importPath eol importName =
        defaultFallbackImportForm (isServer || lexLeChars "es2020".data target.data)
          identifier importPath eol ∧ importName = "default?") ∨
    cjsImportOne isServer target name identifier importPath eol importName =
      namedImportForm importName identifier importPath eol := by
  simp only [List.mem_cons, List.not_mem_nil, or_false, not_or] at hname
  obtain ⟨h1, h2, h3, h4, h5, h6, h7⟩ := hname
  have e1 : (name == "object-assign") = false := beq_eq_false_iff_ne.mpr h1
  have e2 : (name == "has") = false := beq_eq_false_iff_ne.mpr h2
  have e3 : (name == "array-flatten") = false := beq_eq_false_iff_ne.mpr h3
  have e4 : (name == "array-includes") = false := beq_eq_false_iff_ne.mpr h4
  have e5 : (name == "has-symbols") = false := beq_eq_false_iff_ne.mpr h5
  have e6 : (name == "es6-symbol") = false := beq_eq_false_iff_ne.mpr h6
  have e7 : (name == "abort-controller") = false := beq_eq_false_iff_ne.mpr h7
  unfold cjsImportOne
  simp only [e1, e2, e3, e4, e5, e6, e7, Bool.false_eq_true, if_false]
  by_cases s1 : importName = "*"
  · subst s1; exact Or.inl ⟨rfl, rfl⟩
  by_cases s2 : importName = "*?"
  · subst s2; exact Or.inr (Or.inl ⟨rfl, rfl⟩)
  by_cases s3 : importName = "default"
  · subst s3; exact Or.inr (Or.inr (Or.inl ⟨rfl, rfl⟩))
  by_cases s4 : importName = "default?"
  · subst s4; exact Or.inr (Or.inr (Or.inr (Or.inl ⟨rfl, rfl⟩)))
  have b1 : (importName == "*") = false := beq_eq_false_iff_ne.mpr s1
  have b2 : (importName == "*?") = false := beq_eq_false_iff_ne.mpr s2
  have b3 : (importName == "default") = false := beq_eq_false_iff_ne.mpr s3
  have b4 : (importName == "default?") = false := beq_eq_false_iff_ne.mpr s4
  simp only [b1, b2, b3, b4, Bool.false_eq_true, if_false]
  exact Or.inr (Or.inr (Or.inr (Or.inr rfl)))

theorem cjs_import_statement_forms_witness :
    (cjsImportOne false "es2015" "htmlparser" "1" "/p.js" "" "Parser" =
        starImportForm "1" "/p.js" "" ∧ "Parser" = "*") ∨
    (cjsImportOne false "es2015" "htmlparser" "1" "/p.js" "" "Parser" =
        starWrapImportForm "1" "/p.js" "" ∧ "Parser" = "*?") ∨
    (cjsImportOne false "es2015" "htmlparser" "1" "/p.js" "" "Parser" =
        defaultImportForm "1" "/p.js" "" ∧ "Parser" = "default") ∨
    (cjsImportOne false "es2015" "htmlparser" "1" "/p.js" "" "Parser" =
        defaultFallbackImportForm (false || lexLeChars "es2020".data "es2015".data)
          "1" "/p.js" "" ∧ "Parser" = "default?") ∨
    cjsImportOne false "es2015" "htmlparser" "1" "/p.js" "" "Parser" =
      namedImportForm "Parser" "1" "/p.js" "" :=
  cjs_import_statement_forms false "es2015" "htmlparser" "1" "/p.js" "" "Parser" (by decide)

/-! ### The rebuild-on-miss loop (`server/build.go` lines 605-641) -/

/-- The first bundler message the loop inspects: success, a
`Could not resolve "name"` error, a parsed
`No matching export in "rawPath" ... "exportName"` error, or any other
error text. -/
inductive BuildMsg where
  | ok
  | couldNotResolve (name : String)
  | noMatchingExport (rawPath exportName : String)
  | otherError (msg : String)
deriving DecidableEq, Repr

/-- The loop's accumulated rebuild state: the `implicitExternal` set and
the `browserExclude` map from path to synthesized export names. -/
structure RebuildState where
  implicitExternal : List String
  browserExclude : List (String × List String)
deriving DecidableEq, Repr

/-- Membership in the `browserExclude` map. -/
def browserExcludeHas (m : List (String × List String)) (path ex : String) : Bool :=
  match m.lookup path with
  | some exs => exs.contains ex
  | none => false

/-- Recording one export under a path in the `browserExclude` map. -/
def browserExcludeAdd : List (String × List String) → String → String →
    List (String × List String)
  | [], path, ex => [(path, [ex])]
  | (p, exs) :: rest, path, ex =>
    if p == path then (p, exs ++ [ex]) :: rest
    else (p, exs) :: browserExcludeAdd rest path ex

/-- Loop outcome: the bundle succeeded, the build job failed, or the
fuel ran out (which the theorem rules out). -/
inductive BuildLoopResult where
  | success
  | failure
  | fuelOut
deriving DecidableEq, Repr

/-- The browser-exclude path: the error's quoted path with the
`browser-exclude:` namespace tag trimmed. -/
def browserExcludePathOf (rawPath : String) : String :=
  ⟨rawPath.data.drop ("browser-exclude:" : String).data.length⟩

/-- The `goto rebuild` loop of `server/build.go` lines 605-641, driven
by the bundler collaborator: a `Could not resolve` error on the package
itself or on an already-implicit-external name fails; a fresh name is
recorded and the build retried; a `No matching export` error in the
`browser-exclude:` namespace for a non-default export retries once per
(path, export) pair; everything else fails. -/
def rebuildLoop (bundler : RebuildState → BuildMsg) (selfName : String) :
    Nat → RebuildState → BuildLoopResult × RebuildState
  | 0, st => (BuildLoopResult.fuelOut, st)
  | fuel + 1, st =>
    match bundler st with
    | BuildMsg.ok => (BuildLoopResult.success, st)
    | BuildMsg.couldNotResolve name =>
      if name == selfName then (BuildLoopResult.failure, st)
      else if st.implicitExternal.contains name then (BuildLoopResult.failure, st)
      else rebuildLoop bundler selfName fuel
        { st with implicitExternal := st.implicitExternal ++ [name] }
    | BuildMsg.noMatchingExport rawPath exportName =>
      if goStartsWith rawPath "browser-exclude:" && exportName != "default" then
        if browserExcludeHas st.browserExclude (browserExcludePathOf rawPath) exportName then
          (BuildLoopResult.failure, st)
        else rebuildLoop bundler selfName fuel
          { st with browserExclude := browserExcludeAdd st.browserExclude (browserExcludePathOf rawPath) exportName }
      else (BuildLoopResult.failure, st)
    | BuildMsg.otherError _ => (BuildLoopResult.failure, st)

/-- How many reportable misses are not yet recorded in the state. -/
def rebuildMeasure (U : List String) (P : List (String × String)) (st : RebuildState) : Nat :=
  (U.filter (fun n => !st.implicitExternal.contains n)).length +
  (P.filter (fun pr => !browserExcludeHas st.browserExclude pr.1 pr.2)).length

lemma beq_eq_decide_str (a b : String) : (a == b) = decide (a = b) := by
  by_cases h : a = b
  · subst h; simp
  · simp [h, beq_eq_false_iff_ne.mpr h]

lemma browserExcludeHas_add (m : List (String × List String)) (path ex p e : String) :
    browserExcludeHas (browserExcludeAdd m path ex) p e =
      (browserExcludeHas m p e || (p == path && e == ex)) := by
  induction m with
  | nil =>
    simp only [browserExcludeAdd, browserExcludeHas, List.lookup]
    by_cases hp : p = path
    · subst hp
      simp [beq_eq_decide_str]
    · have : (p == path) = false := beq_eq_false_iff_ne.mpr hp
      simp [this]
  | cons kv rest ih =>
    obtain ⟨k, exs⟩ := kv
    by_cases hk : k = path
    · subst hk
      simp only [browserExcludeAdd, beq_self_eq_true, if_true]
      by_cases hp : p = k
      · subst hp
        simp [browserExcludeHas, List.lookup, beq_eq_decide_str]
      · have hpk : (p == k) = false := beq_eq_false_iff_ne.mpr hp
        simp [browserExcludeHas, List.lookup, hpk]
    · have hkp : (k == path) = false := beq_eq_false_iff_ne.mpr hk
      simp only [browserExcludeAdd, hkp, Bool.false_eq_true, if_false]
      by_cases hp : p = k
      · subst hp
        have hppath : (p == path) = false := beq_eq_false_iff_ne.mpr hk
        simp [browserExcludeHas, List.lookup, hppath]
      · have hpk : (p == k) = false := beq_eq_false_iff_ne.mpr hp
        simp only [browserExcludeHas, List.lookup, hpk] at ih ⊢
        exact ih

lemma filter_contains_append_lt (U l : List String) (name : String)
    (hU : name ∈ U) (hn : l.contains name = false) :
    (U.filter (fun n => !(l ++ [name]).contains n)).length <
    (U.filter (fun n => !l.contains n)).length := by
  have hn' : name ∉ l := by simpa using hn
  have hcongr : U.filter (fun n => !(l ++ [name]).contains n) =
      (U.filter (fun n => !l.contains n)).filter (fun n => !(n == name)) := by
    rw [List.filter_filter]
    apply List.filter_congr
    intro n _
    simp [Bool.not_or, Bool.and_comm, beq_eq_decide_str]
  rw [hcongr]
  apply List.length_filter_lt_length_iff_exists.mpr
  refine ⟨name, List.mem_filter.mpr ⟨hU, by simp [hn']⟩, by simp⟩

lemma filter_excl_add_lt (P : List (String × String)) (m : List (String × List String))
    (path ex : String) (hP : (path, ex) ∈ P)
    (hn : browserExcludeHas m path ex = false) :
    (P.filter (fun pr => !browserExcludeHas (browserExcludeAdd m path ex) pr.1 pr.2)).length <
    (P.filter (fun pr => !browserExcludeHas m pr.1 pr.2)).length := by
  have hcongr : P.filter (fun pr => !browserExcludeHas (browserExcludeAdd m path ex) pr.1 pr.2) =
      (P.filter (fun pr => !browserExcludeHas m pr.1 pr.2)).filter
        (fun pr => !(pr.1 == path && pr.2 == ex)) := by
    rw [List.filter_filter]
    apply List.filter_congr
    intro pr _
    rw [browserExcludeHas_add]
    simp [Bool.not_or, Bool.and_comm]
  rw [hcongr]
  apply List.length_filter_lt_length_iff_exists.mpr
  exact ⟨(path, ex), List.mem_filter.mpr ⟨hP, by simp [hn]⟩, by simp⟩

lemma rebuildMeasure_addExternal_lt (U : List String) (P : List (String × String))
    (st : RebuildState) (name : String) (hmem : name ∈ U)
    (hn : st.implicitExternal.contains name = false) :
    rebuildMeasure U P { st with implicitExternal := st.implicitExternal ++ [name] } <
      rebuildMeasure U P st := by
  unfold rebuildMeasure
  dsimp only
  have := filter_contains_append_lt U st.implicitExternal name hmem hn
  omega

lemma rebuildMeasure_addExcl_lt (U : List String) (P : List (String × String))
    (st : RebuildState) (path ex : String) (hmem : (path, ex) ∈ P)
    (hhas : browserExcludeHas st.browserExclude path ex = false) :
    rebuildMeasure U P { st with browserExclude := browserExcludeAdd st.browserExclude path ex } <
      rebuildMeasure U P st := by
  unfold rebuildMeasure
  dsimp only
  have := filter_excl_add_lt P st.browserExclude path ex hmem hhas
  omega

lemma rebuildLoop_no_fuelOut (bundler : RebuildState → BuildMsg) (selfName : String)
    (U : List String) (P : List (String × String))
    (hb : ∀ st name, bundler st = BuildMsg.couldNotResolve name → name ∈ U)
    (hp : ∀ st rawPath ex, bundler st = BuildMsg.noMatchingExport rawPath ex →
      (browserExcludePathOf rawPath, ex) ∈ P) :
    ∀ fuel st, rebuildMeasure U P st < fuel →
      (rebuildLoop bundler selfName fuel st).1 ≠ BuildLoopResult.fuelOut := by
  intro fuel
  induction fuel with
  | zero => intro st h; exact absurd h (Nat.not_lt_zero _)
  | succ f ih =>
    intro st hlt
    rw [rebuildLoop]
    cases hmsg : bundler st with
    | ok => simp
    | couldNotResolve name =>
      by_cases hself : (name == selfName) = true
      · simp [hself]
      · simp only [Bool.not_eq_true] at hself
        by_cases hin : st.implicitExternal.contains name = true
        · have hin' : name ∈ st.implicitExternal := by simpa using hin
          simp [hself, hin']
        · simp only [Bool.not_eq_true] at hin
          simp only [hself, hin, Bool.false_eq_true, if_false]
          have hdec := rebuildMeasure_addExternal_lt U P st name (hb st name hmsg) hin
          apply ih
          omega
    | noMatchingExport rawPath exportName =>
      by_cases hns : (goStartsWith rawPath "browser-exclude:" && exportName != "default") = true
      · by_cases hhas : browserExcludeHas st.browserExclude
            (browserExcludePathOf rawPath) exportName = true
        · simp [hns, hhas]
        · simp only [Bool.not_eq_true] at hhas
          simp only [hns, hhas, Bool.false_eq_true, if_false, if_true]
          have hdec := rebuildMeasure_addExcl_lt U P st
            (browserExcludePathOf rawPath)
            exportName (hp st rawPath exportName hmsg) hhas
          apply ih
          omega
      · simp only [Bool.not_eq_true] at hns
        simp [hns]
    | otherError m => simp

/-- C6: the rebuild loop is bounded. If every `Could not resolve` name
the bundler can report lies in the finite list U and every
browser-exclude (path, export) pair lies in the finite list P — each
rebuild records one fresh such name or pair before retrying, and a
repeat is refused — then the loop run with |U| + |P| + 1 iterations of
fuel from the empty state never exhausts its fuel: it ends in success
or failure after at most |U| + |P| rebuilds. -/
theorem rebuild_loop_bounded (bundler : RebuildState → BuildMsg) (selfName : String)
    (U : List String) (P : List (String × String))
    (hb : ∀ st name, bundler st = BuildMsg.couldNotResolve name → name ∈ U)
    (hp : ∀ st rawPath ex, bundler st = BuildMsg.noMatchingExport rawPath ex →
      (browserExcludePathOf rawPath, ex) ∈ P) :
    (rebuildLoop bundler selfName (U.length + P.length + 1) ⟨[], []⟩).1 ≠
      BuildLoopResult.fuelOut := by
  apply rebuildLoop_no_fuelOut bundler selfName U P hb hp
  unfold rebuildMeasure
  dsimp only
  have h1 : (U.filter (fun n => !([] : List String).contains n)).length ≤ U.length :=
    List.length_filter_le _ _
  have h2 : (P.filter (fun pr => !browserExcludeHas [] pr.1 pr.2)).length ≤ P.length :=
    List.length_filter_le _ _
  omega

theorem rebuild_loop_bounded_witness :
    (rebuildLoop (fun _ => BuildMsg.couldNotResolve "tslib") "self"
      (["tslib"].length + ([] : List (String × String)).length + 1) ⟨[], []⟩).1 ≠
      BuildLoopResult.fuelOut :=
  rebuild_loop_bounded (fun _ => BuildMsg.couldNotResolve "tslib") "self" ["tslib"] []
    (fun _ name h => by
      injection h with h1
      rw [← h1]
      exact List.mem_singleton_self "tslib")
    (fun _ rawPath ex h => by exact BuildMsg.noConfusion h)

/-! ### The build queue (spec §4.F; the `BuildQueue` implementation is
not among the included sources and is modelled from the spec) and the
handler's build wait (`server/esm_handler.go` lines 1101-1122). -/

/-- Modelled from the spec: one queue task — an identity, its ordered
waiting consumer sinks, and the in-process flag. -/
structure QueueTask where
  id : String
  consumers : List Nat
  inProcess : Bool
deriving DecidableEq, Repr

/-- Modelled from the spec: the queue index (one task per identity) and
the next fresh consumer handle. -/
structure QueueState where
  tasks : List QueueTask
  nextHandle : Nat
deriving DecidableEq, Repr

/-- Whether the index holds a task for the identity. -/
def queueHasTask (ts : List QueueTask) (id : String) : Bool :=
  ts.any (fun t => t.id == id)

/-- Attaches one waiter to the task for the identity. -/
def attachConsumer : List QueueTask → String → Nat → List QueueTask
  | [], _, _ => []
  | t :: rest, id, h =>
    if t.id == id then { t with consumers := t.consumers ++ [h] } :: rest
    else t :: attachConsumer rest id h

/-- Modelled from the spec: `add(identity, requester)` — attach a waiter
to the existing task for the identity, else create and enqueue a new
task with this waiter; returns the consumer handle. -/
def queueAdd (q : QueueState) (id : String) : QueueState × Nat :=
  if queueHasTask q.tasks id then
    ({ tasks := attachConsumer q.tasks id q.nextHandle, nextHandle := q.nextHandle + 1 },
     q.nextHandle)
  else
    ({ tasks := q.tasks ++ [⟨id, [q.nextHandle], false⟩], nextHandle := q.nextHandle + 1 },
     q.nextHandle)

/-- Detaches one waiter from the task for the identity (the task itself
stays: in-flight builds run to completion). -/
def detachConsumer : List QueueTask → String → Nat → List QueueTask
  | [], _, _ => []
  | t :: rest, id, h =>
    if t.id == id then { t with consumers := t.consumers.filter (fun c => c ≠ h) } :: rest
    else t :: detachConsumer rest id h

/-- Modelled from the spec: `remove-consumer(handle)`. -/
def queueRemoveConsumer (q : QueueState) (id : String) (h : Nat) : QueueState :=
  { q with tasks := detachConsumer q.tasks id h }

/-- The waiting consumer handles of the identity's task. -/
def queueConsumersOf (q : QueueState) (id : String) : List Nat :=
  match q.tasks.find? (fun t => t.id == id) with
  | some t => t.consumers
  | none => []

/-- Modelled from the spec: a completed build's result is delivered to
every waiter's sink and the task leaves the index; returns the new state
and the (handle, result) deliveries. -/
def queueFinish (q : QueueState) (id : String) (r : String) :
    QueueState × List (Nat × String) :=
  ({ tasks := q.tasks.filter (fun t => t.id != id), nextHandle := q.nextHandle },
   (queueConsumersOf q id).map (fun h => (h, r)))

/-- N sequential `add` calls for the same identity; returns the final
state and the handles in order. -/
def addMany (q : QueueState) (id : String) : Nat → QueueState × List Nat
  | 0 => (q, [])
  | n + 1 =>
    let p := queueAdd q id
    let rest := addMany p.1 id n
    (rest.1, p.2 :: rest.2)

lemma queueHasTask_of_absent (ts : List QueueTask) (id : String)
    (h : ∀ t ∈ ts, t.id ≠ id) : queueHasTask ts id = false := by
  induction ts with
  | nil => rfl
  | cons t rest ih =>
    have h1 : (t.id == id) = false :=
      beq_eq_false_iff_ne.mpr (h t (List.mem_cons_self t rest))
    simp only [queueHasTask, List.any_cons, h1, Bool.false_or]
    exact ih (fun u hu => h u (List.mem_cons_of_mem t hu))

lemma queueHasTask_append_self (ts : List QueueTask) (id : String) (cs : List Nat) (inp : Bool) :
    queueHasTask (ts ++ [⟨id, cs, inp⟩]) id = true := by
  simp [queueHasTask, List.any_append]

lemma attachConsumer_append (ts : List QueueTask) (id : String) (h : Nat)
    (cs : List Nat) (inp : Bool) (hts : ∀ t ∈ ts, t.id ≠ id) :
    attachConsumer (ts ++ [⟨id, cs, inp⟩]) id h = ts ++ [⟨id, cs ++ [h], inp⟩] := by
  induction ts with
  | nil => simp [attachConsumer]
  | cons t rest ih =>
    have h1 : (t.id == id) = false :=
      beq_eq_false_iff_ne.mpr (hts t (List.mem_cons_self t rest))
    simp only [List.cons_append, attachConsumer, h1, Bool.false_eq_true, if_false,
      List.cons.injEq, true_and]
    exact ih (fun u hu => hts u (List.mem_cons_of_mem t hu))

lemma find_append_self (ts : List QueueTask) (id : String) (cs : List Nat) (inp : Bool)
    (hts : ∀ t ∈ ts, t.id ≠ id) :
    (ts ++ [(⟨id, cs, inp⟩ : QueueTask)]).find? (fun t => t.id == id) =
      some (⟨id, cs, inp⟩ : QueueTask) := by
  induction ts with
  | nil => simp [List.find?]
  | cons t rest ih =>
    have h1 : (t.id == id) = false :=
      beq_eq_false_iff_ne.mpr (hts t (List.mem_cons_self t rest))
    simp only [List.cons_append, List.find?, h1]
    exact ih (fun u hu => hts u (List.mem_cons_of_mem t hu))

lemma range_map_succ_shift (nh n : Nat) :
    (List.range (n + 1)).map (fun i => nh + i) =
      nh :: (List.range n).map (fun i => nh + 1 + i) := by
  rw [List.range_succ_eq_map, List.map_cons, List.map_map]
  have hfun : ((fun i => nh + i) ∘ Nat.succ) = (fun i => nh + 1 + i) := by
    funext i
    simp only [Function.comp_apply]
    omega
  rw [hfun]
  simp

lemma addMany_attached (id : String) (n : Nat) :
    ∀ (ts : List QueueTask) (cs : List Nat) (inp : Bool) (nh : Nat),
    (∀ t ∈ ts, t.id ≠ id) →
    addMany ⟨ts ++ [⟨id, cs, inp⟩], nh⟩ id n =
      (⟨ts ++ [⟨id, cs ++ (List.range n).map (fun i => nh + i), inp⟩], nh + n⟩,
       (List.range n).map (fun i => nh + i)) := by
  induction n with
  | zero => intro ts cs inp nh hts; simp [addMany]
  | succ n ih =>
    intro ts cs inp nh hts
    rw [addMany]
    simp only [queueAdd, queueHasTask_append_self, if_true,
      attachConsumer_append ts id nh cs inp hts]
    rw [ih ts (cs ++ [nh]) inp (nh + 1) hts]
    rw [range_map_succ_shift]
    simp [List.append_assoc]
    omega

/-- C2: queue single-flight. From a state holding no task for identity
X, N ≥ 1 submissions of X before completion leave exactly one task for X
in the index — the first `add` creates it, the rest attach waiters, so
the underlying build runs once — whose waiters are precisely the N
handed-out consumer handles, and finishing that one build delivers the
one result object r to all N waiters. -/
theorem queue_single_flight (q0 : QueueState) (id : String) (N : Nat) (r : String)
    (h0 : ∀ t ∈ q0.tasks, t.id ≠ id) (hN : 0 < N) :
    (addMany q0 id N).1.tasks =
      q0.tasks ++ [⟨id, (List.range N).map (fun i => q0.nextHandle + i), false⟩] ∧
    (addMany q0 id N).2 = (List.range N).map (fun i => q0.nextHandle + i) ∧
    ((addMany q0 id N).2).length = N ∧
    (queueFinish (addMany q0 id N).1 id r).2 =
      ((addMany q0 id N).2).map (fun h => (h, r)) := by
  obtain ⟨n, rfl⟩ : ∃ n, N = n + 1 := ⟨N - 1, by omega⟩
  have hstep : addMany q0 id (n + 1) =
      (⟨q0.tasks ++ [⟨id, [q0.nextHandle] ++ (List.range n).map (fun i => q0.nextHandle + 1 + i),
          false⟩], q0.nextHandle + 1 + n⟩,
       q0.nextHandle :: (List.range n).map (fun i => q0.nextHandle + 1 + i)) := by
    rw [addMany]
    simp only [queueAdd, queueHasTask_of_absent q0.tasks id h0, Bool.false_eq_true, if_false]
    rw [addMany_attached id n q0.tasks [q0.nextHandle] false (q0.nextHandle + 1) h0]
  have hlist : [q0.nextHandle] ++ (List.range n).map (fun i => q0.nextHandle + 1 + i) =
      (List.range (n + 1)).map (fun i => q0.nextHandle + i) := by
    rw [range_map_succ_shift]; rfl
  refine ⟨?_, ?_, ?_, ?_⟩
  · rw [hstep]
    simp only []
    rw [hlist]
  · rw [hstep]
    simp only []
    rw [← hlist]
    rfl
  · rw [hstep]
    simp
  · rw [hstep]
    simp only [queueFinish, queueConsumersOf]
    rw [find_append_self q0.tasks id _ false h0]
    rfl

theorem queue_single_flight_witness :
    (addMany ⟨[], 0⟩ "react-dom@18.2.0" 3).1.tasks =
      ([] : List QueueTask) ++
        [⟨"react-dom@18.2.0", (List.range 3).map (fun i => 0 + i), false⟩] ∧
    (addMany ⟨[], 0⟩ "react-dom@18.2.0" 3).2 = (List.range 3).map (fun i => 0 + i) ∧
    ((addMany ⟨[], 0⟩ "react-dom@18.2.0" 3).2).length = 3 ∧
    (queueFinish (addMany ⟨[], 0⟩ "react-dom@18.2.0" 3).1 "react-dom@18.2.0" "built").2 =
      ((addMany ⟨[], 0⟩ "react-dom@18.2.0" 3).2).map (fun h => (h, "built")) :=
  queue_single_flight ⟨[], 0⟩ "react-dom@18.2.0" 3 "built"
    (by intro t ht; exact absurd ht (List.not_mem_nil t)) (by decide)

/-- `time.After(10 * time.Minute)` of `server/esm_handler.go` line 1118,
in seconds. -/
def buildWaitTimeoutSeconds : Nat := 10 * 60

/-- What the handler returns from the select on the build wait. -/
inductive WaitReply where
  | result (r : String)
  | timedOut (status : Nat) (cacheControl : String)
deriving DecidableEq, Repr

/-- The select of `server/esm_handler.go` lines 1101-1122: if the build
finishes within the timeout the consumer receives its output; otherwise
the consumer is removed from the task and a 408 with a non-cacheable
Cache-Control goes out (the task — and hence the running build — is left
in place). -/
def awaitBuild (q : QueueState) (id : String) (h : Nat) (tBuild : Nat) (r : String) :
    WaitReply × QueueState :=
  if tBuild < buildWaitTimeoutSeconds then
    (WaitReply.result r, (queueFinish q id r).1)
  else
    (WaitReply.timedOut 408 "private, no-store, no-cache, must-revalidate",
     queueRemoveConsumer q id h)

lemma queueHasTask_detach (ts : List QueueTask) (id : String) (h : Nat) :
    queueHasTask (detachConsumer ts id h) id = queueHasTask ts id := by
  induction ts with
  | nil => rfl
  | cons t rest ih =>
    by_cases ht : (t.id == id) = true
    · simp [detachConsumer, queueHasTask, ht]
    · simp only [Bool.not_eq_true] at ht
      simp only [detachConsumer, ht, Bool.false_eq_true, if_false, queueHasTask,
        List.any_cons, Bool.false_or]
      exact ih

lemma consumersOf_detach_no_handle (ts : List QueueTask) (id : String) (h : Nat) :
    (queueConsumersOf ⟨detachConsumer ts id h, 0⟩ id).contains h = false := by
  induction ts with
  | nil => rfl
  | cons t rest ih =>
    by_cases ht : (t.id == id) = true
    · simp only [detachConsumer, ht, if_true, queueConsumersOf, List.find?]
      simp [List.mem_filter]
    · simp only [Bool.not_eq_true] at ht
      simp only [detachConsumer, ht, Bool.false_eq_true, if_false, queueConsumersOf,
        List.find?, ht] at ih ⊢
      exact ih

/-- C4: the module-request build wait. The timeout constant is 10
minutes (600 seconds); a build finishing inside it is delivered to the
waiter; once it fires, the reply is HTTP 408 with
`private, no-store, no-cache, must-revalidate`, the waiting consumer is
detached from the task, and the task stays in the queue — the underlying
build keeps running to completion, so later requests hit the cache. -/
theorem build_wait_timeout_behavior (q : QueueState) (id : String) (h : Nat)
    (tBuild : Nat) (r : String) (hq : queueHasTask q.tasks id = true) :
    buildWaitTimeoutSeconds = 600 ∧
    (tBuild < buildWaitTimeoutSeconds → (awaitBuild q id h tBuild r).1 = WaitReply.result r) ∧
    (buildWaitTimeoutSeconds ≤ tBuild →
      (awaitBuild q id h tBuild r).1 =
        WaitReply.timedOut 408 "private, no-store, no-cache, must-revalidate" ∧
      ((queueConsumersOf (awaitBuild q id h tBuild r).2 id).contains h = false ∧
       queueHasTask (awaitBuild q id h tBuild r).2.tasks id = true)) := by
  refine ⟨rfl, ?_, ?_⟩
  · intro hlt
    simp [awaitBuild, hlt]
  · intro hge
    have hnlt : ¬ tBuild < buildWaitTimeoutSeconds := by omega
    refine ⟨by simp [awaitBuild, hnlt], ?_, ?_⟩
    · simp only [awaitBuild, hnlt, if_false, queueRemoveConsumer]
      have := consumersOf_detach_no_handle q.tasks id h
      simpa [queueConsumersOf] using this
    · simp only [awaitBuild, hnlt, if_false, queueRemoveConsumer]
      rw [queueHasTask_detach]
      exact hq

theorem build_wait_timeout_behavior_witness :
    buildWaitTimeoutSeconds = 600 ∧
    (700 < buildWaitTimeoutSeconds →
      (awaitBuild ⟨[⟨"react@18.2.0", [7], true⟩], 8⟩ "react@18.2.0" 7 700 "built").1 =
        WaitReply.result "built") ∧
    (buildWaitTimeoutSeconds ≤ 700 →
      (awaitBuild ⟨[⟨"react@18.2.0", [7], true⟩], 8⟩ "react@18.2.0" 7 700 "built").1 =
        WaitReply.timedOut 408 "private, no-store, no-cache, must-revalidate" ∧
      ((queueConsumersOf
          (awaitBuild ⟨[⟨"react@18.2.0", [7], true⟩], 8⟩ "react@18.2.0" 7 700 "built").2
          "react@18.2.0").contains 7 = false ∧
       queueHasTask
          (awaitBuild ⟨[⟨"react@18.2.0", [7], true⟩], 8⟩ "react@18.2.0" 7 700 "built").2.tasks
          "react@18.2.0" = true)) :=
  build_wait_timeout_behavior ⟨[⟨"react@18.2.0", [7], true⟩], 8⟩ "react@18.2.0" 7 700 "built"
    (by decide)

end EsmSh
